import Mathlib

/-!
# suicord-data: CSV to MySQL loader (`main.go`)

A shallow embedding of `parseCsv`, `createTable` and the file loop of `main`,
together with the parts of the Go standard library they call
(`strconv.Atoi`, `strconv.ParseFloat`, `time.Parse`, `strings.HasPrefix`,
`strings.HasSuffix`, `strings.ReplaceAll`, `strings.Join`).

* Go strings are byte strings.  They are embedded as Lean strings; every byte
  the embedded functions test against is ASCII, and a character outside ASCII
  is, like each of the bytes of its UTF-8 encoding, different from all of them.
* The library functions follow the Go sources (`strconv/atoi.go`,
  `strconv/atof.go`, `time/format.go`, as of Go 1.17 and later), loop by loop,
  for a 64-bit `int`.  `ParseFloat` keeps the exact number it read in place of
  the `float64`, and reports `ErrRange` where the number is at least half an
  ulp above the largest finite `float64`, as its documentation says.
* The database is a function that tells whether `db.Exec` succeeds; a run
  records the statements it executes and the messages it logs (without the
  time stamp of package log).  `checkErr` ends a run with the kind of error it
  was handed; the text of `log.Fatalf` is not embedded.
-/

namespace Suicord

/-! ## Bytes and strings -/

/-- Byte length of a string, Go's `len(s)`. -/
def byteLen : List Char → Nat
  | [] => 0
  | c :: cs => c.utf8Size + byteLen cs

/-- A decimal digit, `'0' <= c && c <= '9'`. -/
def isDigitChar (c : Char) : Bool := decide ('0' ≤ c) && decide (c ≤ '9')

/-- The value `c - '0'` of a decimal digit. -/
def digitVal (c : Char) : Nat := c.toNat - 48

/-- The helper `lower` of package strconv, `c | ('x' - 'X')`, as a character code. -/
def lower (c : Char) : Nat := c.toNat ||| 32

/-- Go's `strings.HasPrefix`. -/
def HasPrefix (s pre : String) : Bool := pre.data.isPrefixOf s.data

/-- Go's `strings.HasSuffix`. -/
def HasSuffix (s suf : String) : Bool := suf.data.isSuffixOf s.data

/-- Go's `strings.Join`. -/
def Join : List String → String → String
  | [], _ => ""
  | [a], _ => a
  | a :: b :: rest, sep => a ++ sep ++ Join (b :: rest) sep

/-- The scan of `strings.ReplaceAll` for a non-empty `old`: every non-overlapping
occurrence of `old`, found from the left, is replaced by `new`. -/
def replaceScan (old new : List Char) : Nat → List Char → List Char
  | 0, s => s
  | _, [] => []
  | fuel + 1, c :: cs =>
    if old.isPrefixOf (c :: cs) then
      new ++ replaceScan old new fuel ((c :: cs).drop old.length)
    else c :: replaceScan old new fuel cs

/-- Go's `strings.ReplaceAll` for a non-empty `old` (the only use in `main`
has `old = "-"`); for an empty `old` the string is returned as it is here. -/
def ReplaceAll (s old new : String) : String :=
  if old.data = [] then s
  else String.mk (replaceScan old.data new.data s.data.length s.data)

deriving instance DecidableEq for Except

/-! ## strconv.Atoi -/

/-- The two error kinds of `strconv.NumError`. -/
inductive NumErr where
  | ErrSyntax
  | ErrRange
  deriving DecidableEq, Repr

/-- Size of Go's `int` on the 64-bit platforms the loader is built for. -/
def intSize : Nat := 64

/-- Fast path loop of `strconv.Atoi`: `n = n*10 + int(ch - '0')`, a syntax error
at the first byte that is not a digit. -/
def atoiFast : List Char → Nat → Except NumErr Nat
  | [], n => .ok n
  | ch :: rest, n =>
    if isDigitChar ch then atoiFast rest (n * 10 + digitVal ch)
    else .error .ErrSyntax

/-- Digit loop of `strconv.ParseUint(s, 10, bitSize)` on `uint64`. -/
def parseUintLoop (maxVal : Nat) : List Char → Nat → Except NumErr Nat
  | [], n => .ok n
  | c :: rest, n =>
    let d? : Option Nat :=
      if isDigitChar c then some (digitVal c)
      else if 97 ≤ lower c ∧ lower c ≤ 122 then some (lower c - 97 + 10)
      else none
    match d? with
    | none => .error .ErrSyntax
    | some d =>
      if d ≥ 10 then .error .ErrSyntax
      else if n ≥ (2 ^ 64 - 1) / 10 + 1 then .error .ErrRange
      else
        let n10 := n * 10 % 2 ^ 64
        let n1 := (n10 + d) % 2 ^ 64
        if n1 < n10 ∨ n1 > maxVal then .error .ErrRange
        else parseUintLoop maxVal rest n1

/-- Go's `strconv.ParseUint(s, 10, bitSize)`. -/
def ParseUint10 (s : List Char) (bitSize : Nat) : Except NumErr Nat :=
  if s = [] then .error .ErrSyntax
  else parseUintLoop (2 ^ bitSize - 1) s 0

/-- Go's `strconv.ParseInt(s, 10, 0)`, with `bitSize` 0 standing for `intSize`. -/
def ParseInt10 (s : List Char) : Except NumErr Int :=
  match s with
  | [] => .error .ErrSyntax
  | c :: rest =>
    let neg := c = '-'
    let body := if c = '+' ∨ c = '-' then rest else s
    match ParseUint10 body intSize with
    | .error .ErrSyntax => .error .ErrSyntax
    | .error .ErrRange => .error .ErrRange
    | .ok un =>
      let cutoff := 2 ^ (intSize - 1)
      if ¬ neg ∧ un ≥ cutoff then .error .ErrRange
      else if neg ∧ un > cutoff then .error .ErrRange
      else .ok (if neg then - (un : Int) else (un : Int))

/-- Go's `strconv.Atoi`: the fast path for strings of fewer than 19 bytes, and
`ParseInt(s, 10, 0)` otherwise. -/
def Atoi (s : String) : Except NumErr Int :=
  let sLen := byteLen s.data
  if 0 < sLen ∧ sLen < 19 then
    match s.data with
    | [] => .error .ErrSyntax
    | c :: rest =>
      let body := if c = '-' ∨ c = '+' then rest else s.data
      if body.length < 1 then .error .ErrSyntax
      else
        match atoiFast body 0 with
        | .error e => .error e
        | .ok n => .ok (if c = '-' then - (n : Int) else (n : Int))
  else ParseInt10 s.data

/-! ## strconv.ParseFloat -/

/-- What `strconv.ParseFloat` read, before rounding to a `float64`: an infinity,
a NaN, or the number `(-1)^neg * mant * base^exp` with `base` 10, or 2 for a
hexadecimal literal.  The embedding keeps the exact number; the `float64` Go
returns is its rounding to nearest even. -/
inductive FloatVal where
  | inf (neg : Bool)
  | nan
  | num (neg hex : Bool) (mant : Nat) (exp : Int)
  deriving DecidableEq, Repr

/-- The case folding of `commonPrefixLenIgnoreCase`,
`if 'A' <= c && c <= 'Z' { c += 'a' - 'A' }`, as a character code. -/
def foldAZ (c : Char) : Nat := if 'A' ≤ c ∧ c ≤ 'Z' then c.toNat + 32 else c.toNat

/-- Go's `commonPrefixLenIgnoreCase(s, prefix)` for a lower-case `prefix`. -/
def commonPrefixLenIgnoreCase : List Char → List Char → Nat
  | c :: s, p :: pre =>
    if foldAZ c ≠ p.toNat then 0 else 1 + commonPrefixLenIgnoreCase s pre
  | _, _ => 0

/-- The `case 'i', 'I'` of Go's `special`, which the sign case falls through
to, on `t`, the string behind the sign: "inf" or "infinity" in any case. -/
def specialInf (neg : Bool) (t : List Char) : Option (FloatVal × List Char) :=
  let n := commonPrefixLenIgnoreCase t "infinity".data
  let n := if 3 < n ∧ n < 8 then 3 else n
  if n = 3 ∨ n = 8 then some (.inf neg, t.drop n) else none

/-- Go's `special`: the value and the rest of the string behind it when the
string starts with an infinity or a NaN. -/
def special (s : List Char) : Option (FloatVal × List Char) :=
  match s with
  | [] => none
  | c :: rest =>
    if c = '+' ∨ c = '-' then specialInf (c = '-') rest
    else if c = 'i' ∨ c = 'I' then specialInf false s
    else if c = 'n' ∨ c = 'N' then
      if commonPrefixLenIgnoreCase s "nan".data = 3 then some (.nan, s.drop 3) else none
    else none

/-- Go's `underscoreOK`, after the optional sign and base prefix: `saw` is the
class of the last character, `'^'`, `'0'`, `'_'` or `'!'`. -/
def underscoreLoop (hex : Bool) : List Char → Char → Bool
  | [], saw => saw ≠ '_'
  | c :: rest, saw =>
    if isDigitChar c ∨ (hex ∧ 97 ≤ lower c ∧ lower c ≤ 102) then underscoreLoop hex rest '0'
    else if c = '_' then
      if saw ≠ '0' then false else underscoreLoop hex rest '_'
    else if saw = '_' then false
    else underscoreLoop hex rest '!'

/-- Go's `underscoreOK`. -/
def underscoreOK (s : List Char) : Bool :=
  let s := match s with
    | c :: rest => if c = '-' ∨ c = '+' then rest else s
    | [] => s
  match s with
  | c0 :: c1 :: rest =>
    if c0 = '0' ∧ (lower c1 = 98 ∨ lower c1 = 111 ∨ lower c1 = 120) then
      underscoreLoop (lower c1 = 120) rest '0'
    else underscoreLoop false s '^'
  | _ => underscoreLoop false s '^'

/-- Local variables of the digit loop of Go's `readFloat`.  `mantissa` holds
every significant digit: Go keeps the first 19 (16 in base 16) and a `trunc`
flag for the rest, which its correctly rounded conversion accounts for. -/
structure ReadState where
  mantissa : Nat := 0
  nd : Nat := 0
  dp : Int := 0
  sawdot : Bool := false
  sawdigits : Bool := false
  underscores : Bool := false
  deriving DecidableEq, Repr

/-- Digit loop of `readFloat` (the loop labelled `loop`): the state at the
first character that ends it, and the string from that character on. -/
def readDigits (base : Nat) : List Char → ReadState → ReadState × List Char
  | [], st => (st, [])
  | c :: rest, st =>
    if c = '_' then readDigits base rest { st with underscores := true }
    else if c = '.' then
      if st.sawdot then (st, c :: rest)
      else readDigits base rest { st with sawdot := true, dp := st.nd }
    else if isDigitChar c then
      if c = '0' ∧ st.nd = 0 then
        readDigits base rest { st with sawdigits := true, dp := st.dp - 1 }
      else
        readDigits base rest
          { st with sawdigits := true, nd := st.nd + 1,
                    mantissa := st.mantissa * base + digitVal c }
    else if base = 16 ∧ 97 ≤ lower c ∧ lower c ≤ 102 then
      readDigits base rest
        { st with sawdigits := true, nd := st.nd + 1,
                  mantissa := st.mantissa * 16 + (lower c - 97 + 10) }
    else (st, c :: rest)

/-- Exponent digits of `readFloat`: `e` stops growing at 10000. -/
def readExp : List Char → Nat → Bool → Nat × Bool × List Char
  | [], e, us => (e, us, [])
  | c :: rest, e, us =>
    if c = '_' then readExp rest e true
    else if isDigitChar c then readExp rest (if e < 10000 then e * 10 + digitVal c else e) us
    else (e, us, c :: rest)

/-- The base prefix test of `readFloat`,
`i+2 < len(s) && s[i] == '0' && lower(s[i+1]) == 'x'`, on `t = s[i:]`. -/
def hexPrefix : List Char → Bool
  | c0 :: c1 :: _ :: _ => decide (c0 = '0') && decide (lower c1 = 120)
  | _ => false

/-- The end of `readFloat`, behind the exponent: the exponent of the mantissa
and the underscore check on the part of `s` that was read. -/
def readFloatEnd (s : List Char) (neg hex : Bool) (st : ReadState) (dp : Int) (us : Bool)
    (r : List Char) : Option (FloatVal × List Char) :=
  let ndMant : Int := if hex then st.nd * 4 else st.nd
  let exp : Int := if st.mantissa ≠ 0 then dp - ndMant else 0
  if us ∧ ¬ underscoreOK (s.take (s.length - r.length)) then none
  else some (.num neg hex st.mantissa exp, r)

/-- The optional exponent of `readFloat`, which a hexadecimal mantissa must
have: `e` or `p`, a sign, digits. -/
def readFloatExp (s : List Char) (neg hex : Bool) (st : ReadState) (dp : Int)
    (r : List Char) : Option (FloatVal × List Char) :=
  match r with
  | e :: r1 =>
    if lower e = (if hex then 112 else 101) then
      match r1 with
      | [] => none
      | sg :: r2 =>
        let esign : Int := if sg = '-' then -1 else 1
        let r3 := if sg = '+' ∨ sg = '-' then r2 else r1
        match r3 with
        | [] => none
        | d :: _ =>
          if ¬ isDigitChar d then none
          else
            let res := readExp r3 0 st.underscores
            readFloatEnd s neg hex st (dp + res.1 * esign) res.2.1 res.2.2
    else if hex then none
    else readFloatEnd s neg hex st dp st.underscores r
  | [] => if hex then none else readFloatEnd s neg hex st dp st.underscores r

/-- Go's `readFloat`: the number read and the string behind it, or `none`
where Go returns `ok = false`. -/
def readFloat (s : List Char) : Option (FloatVal × List Char) :=
  match s with
  | [] => none
  | c :: rest =>
    let neg : Bool := c = '-'
    let t := if c = '+' ∨ c = '-' then rest else s
    let hex := hexPrefix t
    let res := readDigits (if hex then 16 else 10) (if hex then t.drop 2 else t) {}
    if ¬ res.1.sawdigits then none
    else
      let dp : Int := if res.1.sawdot then res.1.dp else res.1.nd
      let dp := if hex then dp * 4 else dp
      readFloatExp s neg hex res.1 dp res.2

/-- Half an ulp above the largest finite `float64`: a number of this magnitude
or more rounds to an infinity, which `ParseFloat` reports as `ErrRange`. -/
def float64Overflow : Nat := 2 ^ 1024 - 2 ^ 970

/-- Whether `mant * base^exp` rounds to an infinity. -/
def overflows (hex : Bool) (mant : Nat) (exp : Int) : Bool :=
  let base := if hex then 2 else 10
  if 0 ≤ exp then decide (float64Overflow ≤ mant * base ^ exp.toNat)
  else decide (float64Overflow * base ^ (-exp).toNat ≤ mant)

/-- Go's `strconv.ParseFloat(s, 64)`: `special`, then `readFloat`; a syntax
error unless the whole string was read, a range error when the number rounds to
an infinity. -/
def ParseFloat (s : String) : Except NumErr FloatVal :=
  match special s.data with
  | some (v, rest) => if rest = [] then .ok v else .error .ErrSyntax
  | none =>
    match readFloat s.data with
    | none => .error .ErrSyntax
    | some (.num neg hex mant exp, rest) =>
      if rest ≠ [] then .error .ErrSyntax
      else if overflows hex mant exp then .error .ErrRange
      else .ok (.num neg hex mant exp)
    | some (v, rest) => if rest = [] then .ok v else .error .ErrSyntax

/-! ## time.Parse -/

/-- The layout elements of package time (its `std...` constants); the two
fractional-second elements carry their number of digits. -/
inductive Std where
  | stdLongMonth | stdMonth | stdNumMonth | stdZeroMonth
  | stdLongWeekDay | stdWeekDay
  | stdDay | stdUnderDay | stdZeroDay | stdUnderYearDay | stdZeroYearDay
  | stdHour | stdHour12 | stdZeroHour12
  | stdMinute | stdZeroMinute | stdSecond | stdZeroSecond
  | stdLongYear | stdYear | stdPM | stdpm | stdTZ
  | stdISO8601TZ | stdISO8601SecondsTZ | stdISO8601ShortTZ
  | stdISO8601ColonTZ | stdISO8601ColonSecondsTZ
  | stdNumTZ | stdNumSecondsTz | stdNumShortTZ | stdNumColonTZ | stdNumColonSecondsTZ
  | stdFracSecond0 (digits : Nat) | stdFracSecond9 (digits : Nat)
  deriving DecidableEq, Repr

/-- Go's `startsWithLowerCase`. -/
def startsWithLowerCase : List Char → Bool
  | [] => false
  | c :: _ => decide ('a' ≤ c) && decide (c ≤ 'z')

/-- One turn of the loop of Go's `nextStdChunk`, at position `i` of the layout
with `l = layout[i:]`: the layout element that starts there, with the part of
`l` that still belongs to the prefix and the layout behind the element. -/
def stdAt (l : List Char) : Option (List Char × Std × List Char) :=
  let lit (w : String) (std : Std) : Option (List Char × Std × List Char) :=
    if w.data.isPrefixOf l then some ([], std, l.drop w.data.length) else none
  match l with
  | [] => none
  | c :: rest =>
    if c = 'J' then
      if "Jan".data.isPrefixOf l then
        if "January".data.isPrefixOf l then some ([], .stdLongMonth, l.drop 7)
        else if ¬ startsWithLowerCase (l.drop 3) then some ([], .stdMonth, l.drop 3)
        else none
      else none
    else if c = 'M' then
      if "Mon".data.isPrefixOf l then
        if "Monday".data.isPrefixOf l then some ([], .stdLongWeekDay, l.drop 6)
        else if ¬ startsWithLowerCase (l.drop 3) then some ([], .stdWeekDay, l.drop 3)
        else none
      else lit "MST" .stdTZ
    else if c = '0' then
      match rest with
      | '1' :: r => some ([], .stdZeroMonth, r)
      | '2' :: r => some ([], .stdZeroDay, r)
      | '3' :: r => some ([], .stdZeroHour12, r)
      | '4' :: r => some ([], .stdZeroMinute, r)
      | '5' :: r => some ([], .stdZeroSecond, r)
      | '6' :: r => some ([], .stdYear, r)
      | '0' :: '2' :: r => some ([], .stdZeroYearDay, r)
      | _ => none
    else if c = '1' then
      match rest with
      | '5' :: r => some ([], .stdHour, r)
      | _ => some ([], .stdNumMonth, rest)
    else if c = '2' then
      if "2006".data.isPrefixOf l then some ([], .stdLongYear, l.drop 4)
      else some ([], .stdDay, rest)
    else if c = '_' then
      match rest with
      | '2' :: r =>
        if "2006".data.isPrefixOf rest then some (['_'], .stdLongYear, rest.drop 4)
        else some ([], .stdUnderDay, r)
      | '_' :: '2' :: r => some ([], .stdUnderYearDay, r)
      | _ => none
    else if c = '3' then some ([], .stdHour12, rest)
    else if c = '4' then some ([], .stdMinute, rest)
    else if c = '5' then some ([], .stdSecond, rest)
    else if c = 'P' then
      match rest with
      | 'M' :: r => some ([], .stdPM, r)
      | _ => none
    else if c = 'p' then
      match rest with
      | 'm' :: r => some ([], .stdpm, r)
      | _ => none
    else if c = '-' then
      (lit "-070000" .stdNumSecondsTz).orElse fun _ =>
      (lit "-07:00:00" .stdNumColonSecondsTZ).orElse fun _ =>
      (lit "-0700" .stdNumTZ).orElse fun _ =>
      (lit "-07:00" .stdNumColonTZ).orElse fun _ =>
      lit "-07" .stdNumShortTZ
    else if c = 'Z' then
      (lit "Z070000" .stdISO8601SecondsTZ).orElse fun _ =>
      (lit "Z07:00:00" .stdISO8601ColonSecondsTZ).orElse fun _ =>
      (lit "Z0700" .stdISO8601TZ).orElse fun _ =>
      (lit "Z07:00" .stdISO8601ColonTZ).orElse fun _ =>
      lit "Z07" .stdISO8601ShortTZ
    else if c = '.' ∨ c = ',' then
      match rest with
      | ch :: _ =>
        if ch = '0' ∨ ch = '9' then
          let after := rest.dropWhile (fun x => x = ch)
          let n := rest.length - after.length
          match after with
          | d :: _ =>
            if isDigitChar d then none
            else some ([], if ch = '9' then .stdFracSecond9 n else .stdFracSecond0 n, after)
          | [] => some ([], if ch = '9' then .stdFracSecond9 n else .stdFracSecond0 n, after)
        else none
      | [] => none
    else none

/-- Go's `nextStdChunk`, from position `i` on, with `pre = layout[0:i]`: the text
before the first layout element, the element (`none` for Go's 0), and the
layout behind it. -/
def nextStdChunkFrom (pre : List Char) : List Char → List Char × Option Std × List Char
  | [] => (pre, none, [])
  | c :: rest =>
    match stdAt (c :: rest) with
    | some (extra, std, suffix) => (pre ++ extra, some std, suffix)
    | none => nextStdChunkFrom (pre ++ [c]) rest

/-- Go's `nextStdChunk`. -/
def nextStdChunk (layout : List Char) : List Char × Option Std × List Char :=
  nextStdChunkFrom [] layout

/-- Go's `cutspace`. -/
def cutspace (s : List Char) : List Char := s.dropWhile (fun c => c = ' ')

/-- Go's `skip(value, prefix)`, run for at most `fuel` turns of its loop: the
value behind the prefix, `none` for `errBad`. -/
def skipLoop : Nat → List Char → List Char → Option (List Char)
  | _, value, [] => some value
  | 0, _, _ :: _ => none
  | fuel + 1, value, p :: pre =>
    if p = ' ' then
      match value with
      | v :: _ =>
        if v ≠ ' ' then none else skipLoop fuel (cutspace value) (cutspace (p :: pre))
      | [] => skipLoop fuel (cutspace value) (cutspace (p :: pre))
    else
      match value with
      | [] => none
      | v :: vs => if v ≠ p then none else skipLoop fuel vs pre

/-- Go's `skip`; each turn of its loop shortens the prefix. -/
def skip (value pre : List Char) : Option (List Char) := skipLoop pre.length value pre

/-- Go's `leadingInt` on `uint64`: the number the leading digits spell and the
rest, `none` on overflow. -/
def leadingInt : List Char → Nat → Option (Nat × List Char)
  | [], x => some (x, [])
  | c :: rest, x =>
    if ¬ isDigitChar c then some (x, c :: rest)
    else if x > 2 ^ 63 / 10 then none
    else
      let x1 := x * 10 + digitVal c
      if x1 > 2 ^ 63 then none else leadingInt rest x1

/-- The `atoi` of package time: an optional sign and digits up to the end. -/
def timeAtoi (s : List Char) : Option Int :=
  let neg : Bool := match s with
    | c :: _ => c = '-'
    | [] => false
  let body := match s with
    | c :: rest => if c = '-' ∨ c = '+' then rest else s
    | [] => s
  match leadingInt body 0 with
  | some (q, []) => some (if neg then - (q : Int) else (q : Int))
  | _ => none

/-- Go's `getnum`: one or two digits (`fixed` forces two) and the rest. -/
def getnum (s : List Char) (fixed : Bool) : Option (Int × List Char) :=
  match s with
  | c0 :: c1 :: rest =>
    if ¬ isDigitChar c0 then none
    else if ¬ isDigitChar c1 then
      if fixed then none else some ((digitVal c0 : Int), c1 :: rest)
    else some ((digitVal c0 * 10 + digitVal c1 : Nat), rest)
  | [c0] =>
    if ¬ isDigitChar c0 then none
    else if fixed then none else some ((digitVal c0 : Int), [])
  | [] => none

/-- Go's `parseNanoseconds(value, nbytes)` (Go 1.17 and later): the digits after
the separator, cut to nine, scaled to nanoseconds. -/
def parseNanoseconds (value : List Char) (nbytes : Nat) : Option Int :=
  match value with
  | [] => none
  | c :: _ =>
    if ¬ (c = '.' ∨ c = ',') then none
    else
      let nbytes := if nbytes > 10 then 10 else nbytes
      match timeAtoi ((value.take nbytes).drop 1) with
      | none => none
      | some ns => if ns < 0 then none else some (ns * 10 ^ (10 - nbytes))

/-- Go's `isLeap`. -/
def isLeap (year : Int) : Bool :=
  decide (year % 4 = 0) && (decide (year % 100 ≠ 0) || decide (year % 400 = 0))

/-- Go's `daysIn`, from the table `daysBefore`. -/
def daysIn (m : Int) (year : Int) : Int :=
  if m = 2 ∧ isLeap year then 29
  else if m = 2 then 28
  else if m = 4 ∨ m = 6 ∨ m = 9 ∨ m = 11 then 30
  else 31

/-- The fields `time.Parse` collects; with no zone element in the layout the
time is `Date(year, month, day, hour, min, sec, nsec, UTC)`. -/
structure Time where
  year : Int := 0
  month : Int := -1
  day : Int := -1
  hour : Int := 0
  min : Int := 0
  sec : Int := 0
  nsec : Int := 0
  deriving DecidableEq, Repr

/-- Result of the embedded `time.Parse`: a time, a parse error, or a layout
element the embedding does not cover (none of them is in `RFC3339Plus`). -/
inductive ParseResult where
  | ok (t : Time)
  | parseError
  | notCovered
  deriving DecidableEq, Repr

/-- The `switch std & stdMask` of Go's `parse` for one layout element, and the
two error tests behind it: the value behind the element and the fields. -/
def parseStd (std : Std) (layout value : List Char) (t : Time) :
    Option (Option (List Char × Time)) :=
  match std with
  | .stdLongYear =>
    match value with
    | c0 :: c1 :: c2 :: c3 :: rest =>
      if ¬ isDigitChar c0 then some none
      else match timeAtoi [c0, c1, c2, c3] with
        | none => some none
        | some y => some (some (rest, { t with year := y }))
    | _ => some none
  | .stdNumMonth | .stdZeroMonth =>
    match getnum value (std = .stdZeroMonth) with
    | none => some none
    | some (m, rest) =>
      if m ≤ 0 ∨ 12 < m then some none else some (some (rest, { t with month := m }))
  | .stdDay | .stdUnderDay | .stdZeroDay =>
    let value := match value with
      | c :: rest => if std = .stdUnderDay ∧ c = ' ' then rest else value
      | [] => value
    match getnum value (std = .stdZeroDay) with
    | none => some none
    | some (d, rest) => some (some (rest, { t with day := d }))
  | .stdHour =>
    match getnum value false with
    | none => some none
    | some (h, rest) =>
      if h < 0 ∨ 24 ≤ h then some none else some (some (rest, { t with hour := h }))
  | .stdMinute | .stdZeroMinute =>
    match getnum value (std = .stdZeroMinute) with
    | none => some none
    | some (m, rest) =>
      if m < 0 ∨ 60 ≤ m then some none else some (some (rest, { t with min := m }))
  | .stdSecond | .stdZeroSecond =>
    match getnum value (std = .stdZeroSecond) with
    | none => some none
    | some (sc, rest) =>
      if sc < 0 ∨ 60 ≤ sc then some none
      else
        let t := { t with sec := sc }
        match rest with
        | c0 :: c1 :: _ =>
          if (c0 = '.' ∨ c0 = ',') ∧ isDigitChar c1 then
            match (nextStdChunk layout).2.1 with
            | some (.stdFracSecond0 _) => some (some (rest, t))
            | some (.stdFracSecond9 _) => some (some (rest, t))
            | _ =>
              let n := 2 + ((rest.drop 2).takeWhile isDigitChar).length
              match parseNanoseconds rest n with
              | none => some none
              | some ns => some (some (rest.drop n, { t with nsec := ns }))
          else some (some (rest, t))
        | _ => some (some (rest, t))
  | _ => none

/-- The loop of Go's `parse` and the validation behind it (a month or a day
the layout has no element for is 1).  Every turn but the last shortens the
layout, so `fuel` above its length is never used up. -/
def parseLoop : Nat → List Char → List Char → Time → ParseResult
  | 0, _, _, _ => .notCovered
  | fuel + 1, layout, value, t =>
    match nextStdChunk layout with
    | (pre, std, suffix) =>
      match skip value pre with
      | none => .parseError
      | some value =>
        match std with
        | none =>
          if value ≠ [] then .parseError
          else
            let month := if t.month < 0 then 1 else t.month
            let day := if t.day < 0 then 1 else t.day
            if day < 1 ∨ day > daysIn month t.year then .parseError
            else .ok { t with month := month, day := day }
        | some std =>
          match parseStd std suffix value t with
          | none => .notCovered
          | some none => .parseError
          | some (some (value, t)) => parseLoop fuel suffix value t

/-- Go's `time.Parse(layout, value)`. -/
def Parse (layout value : String) : ParseResult :=
  parseLoop (layout.data.length + 1) layout.data value.data {}

/-- The constant `RFC3339Plus` of `main.go`. -/
def RFC3339Plus : String := "2006-01-02T15:04:05+07:00"

/-- The text a layout ends with behind its last element: the prefix of the turn
of `parseLoop` in which `nextStdChunk` finds no further element. -/
def finalLiteral : Nat → List Char → Option (List Char)
  | 0, _ => none
  | fuel + 1, layout =>
    match nextStdChunk layout with
    | (pre, none, _) => some pre
    | (_, some _, suffix) => finalLiteral fuel suffix

/-! ## The database, the log and how a run ends -/

/-- An argument bound to a `?` of an INSERT: the cell itself, or the `int`,
`float64` or `time.Time` it was parsed to. -/
inductive Arg where
  | text (s : String)
  | int (n : Int)
  | float (v : FloatVal)
  | time (t : Time)
  deriving DecidableEq, Repr

/-- One call of `db.Exec`: the SQL text and the bound arguments. -/
structure Stmt where
  query : String
  args : List Arg := []
  deriving DecidableEq, Repr

/-- The database as the loader sees it: whether `db.Exec` of a statement
returns a nil error, given the statements executed before it. -/
abbrev DB := List Stmt → Stmt → Bool

/-- The error `checkErr` was handed when it ended the process. -/
inductive Fatal where
  | db
  | io
  | atoi (e : NumErr)
  | parseFloat (e : NumErr)
  | timeParse
  deriving DecidableEq, Repr

/-- How a call ends: it returns, `checkErr` ends the process (`log.Fatalf`), or
an index is out of range (a Go runtime panic). -/
inductive Exit where
  | returned
  | fatal (cause : Fatal)
  | panicked
  deriving DecidableEq, Repr

/-- What a run has done so far: the statements handed to `db.Exec`, oldest
first, and the messages handed to `log.Printf` and `log.Println`. -/
structure World where
  stmts : List Stmt := []
  log : List String := []
  deriving DecidableEq, Repr

/-! ## parseCsv -/

/-- What the file system and `encoding/csv` hand to `parseCsv`: whether
`os.Open` succeeds, the record `reader.Read` returns and the records
`reader.ReadAll` returns after it (`none` for an error).  With
`FieldsPerRecord = -1` the reader checks no field count. -/
structure CsvSource where
  opens : Bool
  header : Option (List String)
  rawRows : Option (List (List String))
  deriving DecidableEq, Repr

/-- The verb `%v` of package fmt on a `[]string`. -/
def fmtStrings (row : List String) : String := "[" ++ Join row " " ++ "]"

/-- The `for _, row := range rawRows` loop of `parseCsv`. -/
def filterRows (header : List String) :
    List (List String) → List (List String) → List String → List (List String) × List String
  | [], rows, log => (rows, log)
  | row :: rest, rows, log =>
    if row.length ≠ header.length then
      filterRows header rest rows
        (log ++ ["> reading csv: row " ++ fmtStrings row ++ " missing rows, skipping"])
    else filterRows header rest (rows ++ [row]) log

/-- Go's `parseCsv`: the header and the rows, or the fatal exit of `checkErr`,
and the log. -/
def parseCsv (file : CsvSource) (log : List String) :
    Except Fatal (List String × List (List String)) × List String :=
  if ¬ file.opens then (.error .io, log)
  else
    match file.header with
    | none => (.error .io, log)
    | some header =>
      match file.rawRows with
      | none => (.error .io, log)
      | some rawRows =>
        let (rows, log) := filterRows header rawRows [] log
        (.ok (header, rows), log)

/-! ## createTable -/

/-- Lines 71 to 79 of `main.go`: the type of a column from its header and its
cell in the first row. -/
def inferColType (header col : String) : String :=
  if (Atoi col).isOk ∧ ¬ HasPrefix header "pct" then "bigint"
  else if (ParseFloat col).isOk then "double"
  else if (Parse RFC3339Plus col matches .ok _) then "datetime"
  else "text"

/-- The `for i, header := range headers` loop of `createTable`: `columns` and
`colTypes`, `none` when `row[i]` is out of range. -/
def inferLoop (row : List String) :
    Nat → List String → List String → List String → Option (List String × List String)
  | _, [], columns, colTypes => some (columns, colTypes)
  | i, header :: rest, columns, colTypes =>
    match row[i]? with
    | none => none
    | some col =>
      let colType := inferColType header col
      inferLoop row (i + 1) rest (columns ++ [header ++ " " ++ colType ++ " not null"])
        (colTypes ++ [colType])

/-- The `switch colTypes[i]` of `createTable` on one cell: the argument
appended to `args` (`none` when no case matches), or the error handed to
`checkErr`. -/
def coerceCell (ty col : String) : Except Fatal (Option Arg) :=
  if ty = "text" then .ok (some (.text col))
  else if ty = "bigint" then
    match Atoi col with
    | .error e => .error (.atoi e)
    | .ok num => .ok (some (.int num))
  else if ty = "double" then
    match ParseFloat col with
    | .error e => .error (.parseFloat e)
    | .ok num => .ok (some (.float num))
  else if ty = "datetime" then
    match Parse RFC3339Plus col with
    | .ok num => .ok (some (.time num))
    | _ => .error .timeParse
  else .ok none

/-- The `for i, col := range row` loop of `createTable`: the arguments and the
question marks of one INSERT, or how the run ends at the first cell that does
not parse under its column type. -/
def coerceLoop (colTypes : List String) :
    Nat → List String → List Arg → List String → Except Exit (List Arg × List String)
  | _, [], args, marks => .ok (args, marks)
  | i, col :: rest, args, marks =>
    let marks := marks ++ ["?"]
    match colTypes[i]? with
    | none => .error .panicked
    | some ty =>
      match coerceCell ty col with
      | .error e => .error (.fatal e)
      | .ok arg => coerceLoop colTypes (i + 1) rest (args ++ arg.toList) marks

/-- The `for _, row := range rows` loop of `createTable`. -/
def insertRows (db : DB) (tableName : String) (headers colTypes : List String) :
    List (List String) → World → Exit × World
  | [], w => (.returned, w)
  | row :: rest, w =>
    match coerceLoop colTypes 0 row [] [] with
    | .error e => (e, w)
    | .ok (args, marks) =>
      let stmt : Stmt :=
        { query := "INSERT INTO " ++ tableName ++ "(" ++ Join headers ", " ++ ") VALUES ("
            ++ Join marks ", " ++ ")",
          args := args }
      let w1 := { w with stmts := w.stmts ++ [stmt] }
      if db w.stmts stmt then insertRows db tableName headers colTypes rest w1
      else (.fatal .db, w1)

/-- Go's `createTable`. -/
def createTable (db : DB) (tableName : String) (headers : List String)
    (rows : List (List String)) (w : World) : Exit × World :=
  match rows with
  | [] => (.returned, { w with log := w.log ++ ["> no rows, cannot figure out table structure. skipping"] })
  | row :: _ =>
    match inferLoop row 0 headers [] [] with
    | none => (.panicked, w)
    | some (columns, colTypes) =>
      let drop : Stmt := { query := "DROP TABLE IF EXISTS " ++ tableName }
      let w1 := { w with stmts := w.stmts ++ [drop] }
      if ¬ db w.stmts drop then (.fatal .db, w1)
      else
        let cols := Join columns ", "
        let cmd : Stmt :=
          { query := "CREATE TABLE " ++ tableName
              ++ " (id bigint not null auto_increment primary key, " ++ cols
              ++ ") CHARACTER SET utf8" }
        let w2 := { w1 with stmts := w1.stmts ++ [cmd] }
        if ¬ db w1.stmts cmd then (.fatal .db, w2)
        else
          let w3 := { w2 with log := w2.log ++ ["> table " ++ tableName ++ " created (" ++ cols ++ ")"] }
          match insertRows db tableName headers colTypes rows w3 with
          | (.returned, w4) =>
            (.returned, { w4 with log := w4.log ++ ["> " ++ toString rows.length ++ " rows inserted"] })
          | r => r

/-! ## main -/

/-- Lines 147 to 151 of `main.go`: the table name of a file, `none` for a file
the loop skips. -/
def tableNameOf (filename : String) : Option String :=
  if ¬ HasSuffix filename ".csv" then none
  else
    let tableName := String.mk (filename.data.take (filename.data.length - ".csv".length))
    some (ReplaceAll tableName "-" "_")

/-- The `for _, file := range files` loop of `main`, over the names in the
order `ioutil.ReadDir` lists them, each with what reading it gives. -/
def mainLoop (db : DB) : List (String × CsvSource) → World → Exit × World
  | [], w => (.returned, w)
  | (filename, file) :: rest, w =>
    match tableNameOf filename with
    | none => mainLoop db rest w
    | some tableName =>
      let w := { w with log := w.log ++ ["Handling " ++ tableName] }
      match parseCsv file w.log with
      | (.error e, log) => (.fatal e, { w with log := log })
      | (.ok (headers, rows), log) =>
        match createTable db tableName headers rows { w with log := log } with
        | (.returned, w) => mainLoop db rest { w with log := w.log ++ ["Done " ++ tableName] }
        | r => r

/-! ## The loops of `parseCsv` and `createTable` -/

theorem filterRows_fst (header : List String) (raw rows : List (List String)) (log : List String) :
    (filterRows header raw rows log).1
      = rows ++ raw.filter (fun r => decide (r.length = header.length)) := by
  induction raw generalizing rows log with
  | nil => simp [filterRows]
  | cons r rest ih =>
    unfold filterRows
    by_cases h : r.length = header.length
    · simp [h, ih]
    · simp [h, ih]

theorem inferLoop_eq (row : List String) (headers : List String) :
    ∀ (i : Nat) (columns colTypes : List String), i + headers.length ≤ row.length →
      inferLoop row i headers columns colTypes
        = some (columns ++ List.zipWith (fun h c => h ++ " " ++ inferColType h c ++ " not null")
                  headers (row.drop i),
                colTypes ++ List.zipWith inferColType headers (row.drop i)) := by
  induction headers with
  | nil => intro i columns colTypes _; simp [inferLoop]
  | cons h hs ih =>
    intro i columns colTypes hlen
    simp only [List.length_cons] at hlen
    have hi : i < row.length := by omega
    have hdrop : row.drop i = row[i] :: row.drop (i + 1) := List.drop_eq_getElem_cons hi
    unfold inferLoop
    rw [List.getElem?_eq_getElem hi]
    simp only []
    rw [ih (i + 1) _ _ (by omega), hdrop]
    simp [List.zipWith]

theorem isOk_iff {ε α : Type} (r : Except ε α) : r.isOk = true ↔ ∃ v, r = .ok v := by
  cases r <;> simp [Except.isOk, Except.toBool]

theorem inferColType_spec (header col : String) :
    (inferColType header col = "bigint"
        ↔ (∃ n, Atoi col = .ok n) ∧ HasPrefix header "pct" = false)
      ∧ (inferColType header col = "double"
        ↔ ¬ ((∃ n, Atoi col = .ok n) ∧ HasPrefix header "pct" = false)
          ∧ ∃ v, ParseFloat col = .ok v)
      ∧ (inferColType header col = "datetime"
        ↔ ¬ ((∃ n, Atoi col = .ok n) ∧ HasPrefix header "pct" = false)
          ∧ (¬ ∃ v, ParseFloat col = .ok v) ∧ ∃ t, Parse RFC3339Plus col = .ok t)
      ∧ (inferColType header col = "text"
        ↔ ¬ ((∃ n, Atoi col = .ok n) ∧ HasPrefix header "pct" = false)
          ∧ (¬ ∃ v, ParseFloat col = .ok v) ∧ ¬ ∃ t, Parse RFC3339Plus col = .ok t) := by
  cases hA : Atoi col <;> cases hF : ParseFloat col <;> cases hP : Parse RFC3339Plus col <;>
    cases hH : HasPrefix header "pct" <;>
    simp [inferColType, hA, hF, hP, hH, Except.isOk, Except.toBool]

theorem inferColType_mem (header col : String) :
    inferColType header col = "bigint" ∨ inferColType header col = "double"
      ∨ inferColType header col = "datetime" ∨ inferColType header col = "text" := by
  unfold inferColType
  split
  · exact Or.inl rfl
  · split
    · exact Or.inr (Or.inl rfl)
    · split
      · exact Or.inr (Or.inr (Or.inl rfl))
      · exact Or.inr (Or.inr (Or.inr rfl))

/-- Under one of the four column types a cell either is bound as an argument,
exactly when it parses under the type, or gives a coercion error. -/
theorem coerceCell_four (ty col : String)
    (hty : ty = "bigint" ∨ ty = "double" ∨ ty = "datetime" ∨ ty = "text") :
    ((∃ a, coerceCell ty col = .ok (some a))
        ↔ (ty = "bigint" → ∃ n, Atoi col = .ok n)
          ∧ (ty = "double" → ∃ v, ParseFloat col = .ok v)
          ∧ (ty = "datetime" → ∃ t, Parse RFC3339Plus col = .ok t))
      ∧ ((∃ a, coerceCell ty col = .ok (some a))
          ∨ ∃ e, coerceCell ty col = .error e ∧ e ≠ .db ∧ e ≠ .io) := by
  rcases hty with h | h | h | h <;> subst h
  · cases h : Atoi col <;> simp [coerceCell, h]
  · cases h : ParseFloat col <;> simp [coerceCell, h]
  · cases h : Parse RFC3339Plus col <;> simp [coerceCell, h]
  · simp [coerceCell]

theorem forall₂_of_forall_exists {α β : Type} (R : α → β → Prop) (l : List β)
    (h : ∀ x ∈ l, ∃ a, R a x) : ∃ as, List.Forall₂ R as l := by
  induction l with
  | nil => exact ⟨[], List.Forall₂.nil⟩
  | cons x xs ih =>
    obtain ⟨a, ha⟩ := h x (List.mem_cons_self _ _)
    obtain ⟨as, has⟩ := ih (fun y hy => h y (List.mem_cons_of_mem _ hy))
    exact ⟨a :: as, List.Forall₂.cons ha has⟩

theorem coerceLoop_ok (colTypes : List String) (row : List String) :
    ∀ (i : Nat) (args : List Arg) (marks : List String) (as : List Arg),
      List.Forall₂ (fun a (tc : String × String) => coerceCell tc.1 tc.2 = .ok (some a))
        as (List.zip (colTypes.drop i) row) →
      row.length ≤ (colTypes.drop i).length →
      coerceLoop colTypes i row args marks
        = .ok (args ++ as, marks ++ List.replicate row.length "?") := by
  induction row with
  | nil =>
    intro i args marks as h _
    simp only [List.zip_nil_right, List.forall₂_nil_right_iff] at h
    simp [coerceLoop, h]
  | cons c cs ih =>
    intro i args marks as h hlen
    have hi : i < colTypes.length := by
      simp only [List.length_cons, List.length_drop] at hlen; omega
    have hdrop : colTypes.drop i = colTypes[i] :: colTypes.drop (i + 1) :=
      List.drop_eq_getElem_cons hi
    rw [hdrop] at h
    simp only [List.zip_cons_cons, List.forall₂_cons_right_iff] at h
    obtain ⟨a, as1, ha, has, rfl⟩ := h
    unfold coerceLoop
    simp only [List.getElem?_eq_getElem hi, ha]
    rw [ih (i + 1) _ _ as1 has (by
      simp only [List.length_cons, List.length_drop] at hlen ⊢; omega)]
    simp [List.replicate_succ]

theorem coerceLoop_err (colTypes : List String) (row : List String) :
    ∀ (i : Nat) (args : List Arg) (marks : List String),
      row.length ≤ (colTypes.drop i).length →
      (∀ tc ∈ List.zip (colTypes.drop i) row,
        (∃ a, coerceCell tc.1 tc.2 = .ok (some a))
          ∨ ∃ e, coerceCell tc.1 tc.2 = .error e ∧ e ≠ .db ∧ e ≠ .io) →
      (∃ tc ∈ List.zip (colTypes.drop i) row, ¬ ∃ a, coerceCell tc.1 tc.2 = .ok (some a)) →
      ∃ e, coerceLoop colTypes i row args marks = .error (.fatal e) ∧ e ≠ .db ∧ e ≠ .io := by
  induction row with
  | nil => intro i args marks _ _ h; simp at h
  | cons c cs ih =>
    intro i args marks hlen hall hbad
    have hi : i < colTypes.length := by
      simp only [List.length_cons, List.length_drop] at hlen; omega
    have hdrop : colTypes.drop i = colTypes[i] :: colTypes.drop (i + 1) :=
      List.drop_eq_getElem_cons hi
    rw [hdrop] at hall hbad
    simp only [List.zip_cons_cons, List.mem_cons, forall_eq_or_imp, exists_eq_or_imp] at hall hbad
    unfold coerceLoop
    simp only [List.getElem?_eq_getElem hi]
    rcases hall.1 with ⟨a, ha⟩ | ⟨e, he, hne⟩
    · simp only [ha]
      rcases hbad with hb | hb
      · exact absurd ⟨a, ha⟩ hb
      · exact ih (i + 1) _ _ (by
          simp only [List.length_cons, List.length_drop] at hlen ⊢; omega) hall.2 hb
    · exact ⟨e, by simp [he], hne⟩

theorem stmt_eta (s : Stmt) (q : String) (h : s.query = q) :
    ({ query := q, args := s.args } : Stmt) = s := by
  cases s; simp only [Stmt.mk.injEq, and_true]; exact h.symm

theorem insertRows_ok (db : DB) (hdb : ∀ hist s, db hist s = true) (tableName : String)
    (headers colTypes : List String) (rows : List (List String)) :
    ∀ (w : World) (inserts : List Stmt),
      List.Forall₂ (fun (stmt : Stmt) (r : List String) =>
          stmt.query = "INSERT INTO " ++ tableName ++ "(" ++ Join headers ", " ++ ") VALUES ("
            ++ Join (List.replicate r.length "?") ", " ++ ")"
          ∧ List.Forall₂ (fun a (tc : String × String) => coerceCell tc.1 tc.2 = .ok (some a))
              stmt.args (List.zip colTypes r))
        inserts rows →
      (∀ r ∈ rows, r.length ≤ colTypes.length) →
      insertRows db tableName headers colTypes rows w
        = (.returned, { w with stmts := w.stmts ++ inserts }) := by
  induction rows with
  | nil =>
    intro w inserts h _
    simp only [List.forall₂_nil_right_iff] at h
    simp [insertRows, h]
  | cons r rs ih =>
    intro w inserts h hlen
    simp only [List.forall₂_cons_right_iff] at h
    obtain ⟨stmt, ins1, ⟨hq, hargs⟩, hrest, rfl⟩ := h
    unfold insertRows
    rw [coerceLoop_ok colTypes r 0 [] [] stmt.args (by simpa using hargs)
      (by simpa using hlen r (List.mem_cons_self _ _))]
    simp only [List.nil_append, hdb, if_true]
    rw [ih _ ins1 hrest (fun x hx => hlen x (List.mem_cons_of_mem _ hx))]
    simp [stmt_eta stmt _ hq]

theorem insertRows_fail (db : DB) (hdb : ∀ hist s, db hist s = true) (tableName : String)
    (headers colTypes : List String) (pre : List (List String)) (bad : List String)
    (post : List (List String)) :
    ∀ (w : World) (inserts : List Stmt),
      List.Forall₂ (fun (stmt : Stmt) (r : List String) =>
          stmt.query = "INSERT INTO " ++ tableName ++ "(" ++ Join headers ", " ++ ") VALUES ("
            ++ Join (List.replicate r.length "?") ", " ++ ")"
          ∧ List.Forall₂ (fun a (tc : String × String) => coerceCell tc.1 tc.2 = .ok (some a))
              stmt.args (List.zip colTypes r))
        inserts pre →
      (∀ r ∈ pre, r.length ≤ colTypes.length) →
      bad.length ≤ colTypes.length →
      (∀ tc ∈ List.zip colTypes bad,
        (∃ a, coerceCell tc.1 tc.2 = .ok (some a))
          ∨ ∃ e, coerceCell tc.1 tc.2 = .error e ∧ e ≠ .db ∧ e ≠ .io) →
      (∃ tc ∈ List.zip colTypes bad, ¬ ∃ a, coerceCell tc.1 tc.2 = .ok (some a)) →
      ∃ e, insertRows db tableName headers colTypes (pre ++ bad :: post) w
          = (.fatal e, { w with stmts := w.stmts ++ inserts }) ∧ e ≠ .db ∧ e ≠ .io := by
  induction pre with
  | nil =>
    intro w inserts h _ hlen hall hbad
    simp only [List.forall₂_nil_right_iff] at h
    subst h
    obtain ⟨e, he, hne⟩ := coerceLoop_err colTypes bad 0 [] [] (by simpa using hlen)
      (by simpa using hall) (by simpa using hbad)
    refine ⟨e, ?_, hne⟩
    simp [insertRows, he]
  | cons r rs ih =>
    intro w inserts h hlen hblen hall hbad
    simp only [List.forall₂_cons_right_iff] at h
    obtain ⟨stmt, ins1, ⟨hq, hargs⟩, hrest, rfl⟩ := h
    obtain ⟨e, he, hne⟩ := ih { w with stmts := w.stmts ++ [stmt] } ins1 hrest
      (fun x hx => hlen x (List.mem_cons_of_mem _ hx)) hblen hall hbad
    refine ⟨e, ?_, hne⟩
    simp only [List.cons_append]
    unfold insertRows
    rw [coerceLoop_ok colTypes r 0 [] [] stmt.args (by simpa using hargs)
      (by simpa using hlen r (List.mem_cons_self _ _))]
    simp only [List.nil_append, hdb, if_true, stmt_eta stmt _ hq]
    rw [he]
    simp

theorem exists_first_bad {α : Type} (P : α → Prop) (l : List α) (h : ¬ ∀ x ∈ l, P x) :
    ∃ pre bad post, l = pre ++ bad :: post ∧ (∀ x ∈ pre, P x) ∧ ¬ P bad := by
  induction l with
  | nil => simp at h
  | cons x xs ih =>
    by_cases hx : P x
    · have hxs : ¬ ∀ y ∈ xs, P y := by
        intro hall
        apply h
        intro y hy
        rcases List.mem_cons.mp hy with rfl | hy
        · exact hx
        · exact hall y hy
      obtain ⟨pre, bad, post, rfl, hpre, hbad⟩ := ih hxs
      refine ⟨x :: pre, bad, post, rfl, ?_, hbad⟩
      intro y hy
      rcases List.mem_cons.mp hy with rfl | hy
      · exact hx
      · exact hpre y hy
    · exact ⟨[], x, xs, rfl, by simp, hx⟩

theorem mem_zip_types (headers row0 r : List String) (tc : String × String) :
    tc ∈ List.zip (List.zipWith inferColType headers row0) r
      ↔ ∃ (i : Nat) (header c0 c : String), headers[i]? = some header ∧ row0[i]? = some c0 ∧ r[i]? = some c
          ∧ tc = (inferColType header c0, c) := by
  rw [List.mem_iff_getElem?]
  constructor
  · rintro ⟨i, hi⟩
    rw [List.getElem?_zip_eq_some, List.getElem?_zipWith_eq_some] at hi
    obtain ⟨⟨header, c0, h1, h2, h3⟩, h4⟩ := hi
    exact ⟨i, header, c0, tc.2, h1, h2, h4, by rw [h3]⟩
  · rintro ⟨i, header, c0, c, h1, h2, h3, rfl⟩
    refine ⟨i, ?_⟩
    rw [List.getElem?_zip_eq_some, List.getElem?_zipWith_eq_some]
    exact ⟨⟨header, c0, h1, h2, rfl⟩, h3⟩

theorem zip_types_cases (headers row0 r : List String) :
    ∀ tc ∈ List.zip (List.zipWith inferColType headers row0) r,
      (∃ a, coerceCell tc.1 tc.2 = .ok (some a))
        ∨ ∃ e, coerceCell tc.1 tc.2 = .error e ∧ e ≠ .db ∧ e ≠ .io := by
  intro tc htc
  obtain ⟨i, header, c0, c, _, _, _, rfl⟩ := (mem_zip_types headers row0 r tc).mp htc
  exact (coerceCell_four _ _ (inferColType_mem header c0)).2

/-- Every cell of a row parses under the type of its column, in the terms of
the coercion switch. -/
theorem cells_ok_iff (headers row0 r : List String) :
    (∀ tc ∈ List.zip (List.zipWith inferColType headers row0) r,
        ∃ a, coerceCell tc.1 tc.2 = .ok (some a))
      ↔ ∀ (i : Nat) (header c0 c : String),
          headers[i]? = some header → row0[i]? = some c0 → r[i]? = some c →
            (inferColType header c0 = "bigint" → ∃ n, Atoi c = .ok n)
              ∧ (inferColType header c0 = "double" → ∃ v, ParseFloat c = .ok v)
              ∧ (inferColType header c0 = "datetime" → ∃ t, Parse RFC3339Plus c = .ok t) := by
  constructor
  · intro h i header c0 c h1 h2 h3
    have := h (inferColType header c0, c)
      ((mem_zip_types headers row0 r _).mpr ⟨i, header, c0, c, h1, h2, h3, rfl⟩)
    exact (coerceCell_four _ _ (inferColType_mem header c0)).1.mp this
  · intro h tc htc
    obtain ⟨i, header, c0, c, h1, h2, h3, rfl⟩ := (mem_zip_types headers row0 r tc).mp htc
    exact (coerceCell_four _ _ (inferColType_mem header c0)).1.mpr (h i header c0 c h1 h2 h3)

/-- The run of `createTable` on a non-empty row list whose first row is at
least as wide as the header, against a database that accepts every statement:
DROP, CREATE, the log line, then the insertion loop. -/
theorem createTable_run (db : DB) (hdb : ∀ hist s, db hist s = true) (tableName : String)
    (headers row : List String) (rest : List (List String)) (w : World)
    (hw : headers.length ≤ row.length) (e : Exit) (w4 : World)
    (h : insertRows db tableName headers (List.zipWith inferColType headers row)
            (row :: rest)
            { stmts := w.stmts ++ [{ query := "DROP TABLE IF EXISTS " ++ tableName },
                { query := "CREATE TABLE " ++ tableName
                    ++ " (id bigint not null auto_increment primary key, "
                    ++ Join (List.zipWith (fun h c => h ++ " " ++ inferColType h c ++ " not null")
                        headers row) ", "
                    ++ ") CHARACTER SET utf8" }],
              log := w.log ++ ["> table " ++ tableName ++ " created ("
                    ++ Join (List.zipWith (fun h c => h ++ " " ++ inferColType h c ++ " not null")
                        headers row) ", " ++ ")"] } = (e, w4)) :
    createTable db tableName headers (row :: rest) w
      = (e, { w4 with log := if e = .returned then
                w4.log ++ ["> " ++ toString (row :: rest).length ++ " rows inserted"]
              else w4.log }) := by
  unfold createTable
  simp only [inferLoop_eq row headers 0 [] [] (by simpa using hw), List.drop_zero,
    List.nil_append, hdb, not_true_eq_false, if_false, List.append_assoc, List.singleton_append]
  rw [h]
  cases e <;> simp

/-- The INSERT statements of rows that all coerce, one a row, in row order. -/
theorem inserts_of_rows (tableName : String) (headers row0 : List String)
    (rows : List (List String))
    (hok : ∀ r ∈ rows, ∀ tc ∈ List.zip (List.zipWith inferColType headers row0) r,
        ∃ a, coerceCell tc.1 tc.2 = .ok (some a)) :
    ∃ inserts : List Stmt,
      List.Forall₂ (fun (stmt : Stmt) (r : List String) =>
          stmt.query = "INSERT INTO " ++ tableName ++ "(" ++ Join headers ", " ++ ") VALUES ("
            ++ Join (List.replicate r.length "?") ", " ++ ")"
          ∧ List.Forall₂ (fun a (tc : String × String) => coerceCell tc.1 tc.2 = .ok (some a))
              stmt.args (List.zip (List.zipWith inferColType headers row0) r))
        inserts rows := by
  induction rows with
  | nil => exact ⟨[], List.Forall₂.nil⟩
  | cons r rs ih =>
    obtain ⟨ins, hins⟩ := ih (fun x hx => hok x (List.mem_cons_of_mem _ hx))
    obtain ⟨as, has⟩ := forall₂_of_forall_exists
      (fun a (tc : String × String) => coerceCell tc.1 tc.2 = .ok (some a)) _
      (hok r (List.mem_cons_self _ _))
    exact ⟨{ query := _, args := as } :: ins, List.Forall₂.cons ⟨rfl, has⟩ hins⟩

theorem forall₂_imp_mem {α β : Type} {R S : α → β → Prop} {as : List α} {l : List β}
    (h : List.Forall₂ R as l) (himp : ∀ a x, x ∈ l → R a x → S a x) : List.Forall₂ S as l := by
  induction h with
  | nil => exact List.Forall₂.nil
  | cons hab _ ih =>
    exact List.Forall₂.cons (himp _ _ (List.mem_cons_self _ _) hab)
      (ih (fun a x hx => himp a x (List.mem_cons_of_mem _ hx)))

theorem forall₂_getElem? {α β : Type} {R : α → β → Prop} {as : List α} {l : List β}
    (h : List.Forall₂ R as l) :
    ∀ (i : Nat) (x : β), l[i]? = some x → ∃ a, as[i]? = some a ∧ R a x := by
  induction h with
  | nil => intro i x hx; simp at hx
  | cons hab _ ih =>
    intro i x hx
    cases i with
    | zero =>
      simp only [List.getElem?_cons_zero, Option.some.injEq] at hx
      subst hx
      exact ⟨_, by simp, hab⟩
    | succ k =>
      simp only [List.getElem?_cons_succ] at hx ⊢
      exact ih k x hx

/-- The arguments of the INSERT of a row that coerces, cell by cell. -/
theorem insert_args (headers row0 r : List String) (args : List Arg)
    (hrow0 : row0.length = headers.length) (hr : r.length = headers.length)
    (h : List.Forall₂ (fun a (tc : String × String) => coerceCell tc.1 tc.2 = .ok (some a))
      args (List.zip (List.zipWith inferColType headers row0) r)) :
    args.length = headers.length
      ∧ ∀ (i : Nat) (header c0 c : String),
          headers[i]? = some header → row0[i]? = some c0 → r[i]? = some c →
            coerceCell (inferColType header c0) c = .ok args[i]?
              ∧ (inferColType header c0 = "text" → args[i]? = some (.text c)) := by
  refine ⟨?_, ?_⟩
  · rw [h.length_eq]
    simp [List.length_zip, List.length_zipWith, hrow0, hr]
  · intro i header c0 c h1 h2 h3
    have hz : (List.zip (List.zipWith inferColType headers row0) r)[i]?
        = some (inferColType header c0, c) := by
      rw [List.getElem?_zip_eq_some, List.getElem?_zipWith_eq_some]
      exact ⟨⟨header, c0, h1, h2, rfl⟩, h3⟩
    obtain ⟨a, ha, hc⟩ := forall₂_getElem? h i _ hz
    simp only [] at hc
    refine ⟨by rw [ha]; exact hc, ?_⟩
    intro ht
    rw [ht] at hc
    simp only [coerceCell, if_true, Except.ok.injEq, Option.some.injEq] at hc
    rw [ha, ← hc]

/-- C6: against a database that accepts every statement, `createTable` on a
non-empty list of header-width rows returns if and only if every cell of every
row parses under the type inferred for its column from the first row (a text
column asks nothing of its cells); otherwise the run ends in `checkErr` on a
coercion error.  A run that returns has executed DROP, CREATE and one INSERT
for every row, in row order, whose argument `i` is the coercion of the row's
cell `i` under the type of column `i`: for a text column the cell itself,
unchanged. -/
theorem C6_returns_iff_every_cell_reparses (db : DB) (hdb : ∀ hist s, db hist s = true)
    (tableName : String) (headers row : List String) (rest : List (List String)) (w : World)
    (hw : ∀ r ∈ row :: rest, r.length = headers.length) :
    ((createTable db tableName headers (row :: rest) w).1 = .returned
        ↔ ∀ r ∈ row :: rest, ∀ (i : Nat) (header c0 c : String),
            headers[i]? = some header → row[i]? = some c0 → r[i]? = some c →
              (inferColType header c0 = "bigint" → ∃ n, Atoi c = .ok n)
                ∧ (inferColType header c0 = "double" → ∃ v, ParseFloat c = .ok v)
                ∧ (inferColType header c0 = "datetime" → ∃ t, Parse RFC3339Plus c = .ok t))
      ∧ ((¬ ∀ r ∈ row :: rest, ∀ (i : Nat) (header c0 c : String),
            headers[i]? = some header → row[i]? = some c0 → r[i]? = some c →
              (inferColType header c0 = "bigint" → ∃ n, Atoi c = .ok n)
                ∧ (inferColType header c0 = "double" → ∃ v, ParseFloat c = .ok v)
                ∧ (inferColType header c0 = "datetime" → ∃ t, Parse RFC3339Plus c = .ok t))
          → ∃ e, (createTable db tableName headers (row :: rest) w).1 = .fatal e
              ∧ e ≠ .db ∧ e ≠ .io)
      ∧ (∀ col : String, coerceCell "text" col = .ok (some (.text col)))
      ∧ ((createTable db tableName headers (row :: rest) w).1 = .returned →
          ∃ inserts : List Stmt,
            (createTable db tableName headers (row :: rest) w).2.stmts
                = w.stmts
                  ++ [{ query := "DROP TABLE IF EXISTS " ++ tableName },
                      { query := "CREATE TABLE " ++ tableName
                          ++ " (id bigint not null auto_increment primary key, "
                          ++ Join (List.zipWith
                              (fun h c => h ++ " " ++ inferColType h c ++ " not null")
                              headers row) ", "
                          ++ ") CHARACTER SET utf8" }]
                  ++ inserts
              ∧ List.Forall₂ (fun (stmt : Stmt) (r : List String) =>
                  stmt.query = "INSERT INTO " ++ tableName ++ "(" ++ Join headers ", "
                    ++ ") VALUES (" ++ Join (List.replicate headers.length "?") ", " ++ ")"
                  ∧ stmt.args.length = headers.length
                  ∧ ∀ (i : Nat) (header c0 c : String),
                      headers[i]? = some header → row[i]? = some c0 → r[i]? = some c →
                        coerceCell (inferColType header c0) c = .ok stmt.args[i]?
                          ∧ (inferColType header c0 = "text" → stmt.args[i]? = some (.text c)))
                inserts (row :: rest)) := by
  have hrow0 : row.length = headers.length := hw row (List.mem_cons_self _ _)
  have hrow : headers.length ≤ row.length := by rw [hrow0]
  have hct : (List.zipWith inferColType headers row).length = headers.length := by
    simp [List.length_zipWith, hrow0]
  have hfail : (¬ ∀ r ∈ row :: rest, ∀ (i : Nat) (header c0 c : String),
            headers[i]? = some header → row[i]? = some c0 → r[i]? = some c →
              (inferColType header c0 = "bigint" → ∃ n, Atoi c = .ok n)
                ∧ (inferColType header c0 = "double" → ∃ v, ParseFloat c = .ok v)
                ∧ (inferColType header c0 = "datetime" → ∃ t, Parse RFC3339Plus c = .ok t))
          → ∃ e, (createTable db tableName headers (row :: rest) w).1 = .fatal e
              ∧ e ≠ .db ∧ e ≠ .io := by
    intro hnot
    obtain ⟨pre, bad, post, hl, hpre, hbad⟩ := exists_first_bad _ _ hnot
    have hw2 : ∀ r ∈ pre ++ bad :: post, r.length = headers.length := hl ▸ hw
    obtain ⟨ins, hins⟩ := inserts_of_rows tableName headers row pre
      (fun r hr => (cells_ok_iff headers row r).mpr (hpre r hr))
    have hbad2 : ∃ tc ∈ List.zip (List.zipWith inferColType headers row) bad,
        ¬ ∃ a, coerceCell tc.1 tc.2 = .ok (some a) := by
      by_contra hcon
      push_neg at hcon
      exact hbad ((cells_ok_iff headers row bad).mp hcon)
    obtain ⟨e, he, hne⟩ := insertRows_fail db hdb tableName headers
      (List.zipWith inferColType headers row) pre bad post _ ins hins
      (fun r hr => by rw [hct, hw2 r (List.mem_append_left _ hr)])
      (by rw [hct, hw2 bad (by simp)])
      (zip_types_cases headers row bad) hbad2
    rw [← hl] at he
    exact ⟨e, by rw [createTable_run db hdb tableName headers row rest w hrow _ _ he], hne⟩
  have hret : (createTable db tableName headers (row :: rest) w).1 = .returned →
      ∀ r ∈ row :: rest, ∀ (i : Nat) (header c0 c : String),
            headers[i]? = some header → row[i]? = some c0 → r[i]? = some c →
              (inferColType header c0 = "bigint" → ∃ n, Atoi c = .ok n)
                ∧ (inferColType header c0 = "double" → ∃ v, ParseFloat c = .ok v)
                ∧ (inferColType header c0 = "datetime" → ∃ t, Parse RFC3339Plus c = .ok t) := by
    intro hret
    by_contra hnot
    obtain ⟨e, he, _⟩ := hfail hnot
    rw [he] at hret
    exact absurd hret (by simp)
  have hok : (∀ r ∈ row :: rest, ∀ (i : Nat) (header c0 c : String),
            headers[i]? = some header → row[i]? = some c0 → r[i]? = some c →
              (inferColType header c0 = "bigint" → ∃ n, Atoi c = .ok n)
                ∧ (inferColType header c0 = "double" → ∃ v, ParseFloat c = .ok v)
                ∧ (inferColType header c0 = "datetime" → ∃ t, Parse RFC3339Plus c = .ok t))
      → ∃ ins : List Stmt, ∃ w4 : World,
          createTable db tableName headers (row :: rest) w = (.returned, w4)
            ∧ w4.stmts = w.stmts
                  ++ [{ query := "DROP TABLE IF EXISTS " ++ tableName },
                      { query := "CREATE TABLE " ++ tableName
                          ++ " (id bigint not null auto_increment primary key, "
                          ++ Join (List.zipWith
                              (fun h c => h ++ " " ++ inferColType h c ++ " not null")
                              headers row) ", "
                          ++ ") CHARACTER SET utf8" }]
                  ++ ins
            ∧ List.Forall₂ (fun (stmt : Stmt) (r : List String) =>
                stmt.query = "INSERT INTO " ++ tableName ++ "(" ++ Join headers ", "
                  ++ ") VALUES (" ++ Join (List.replicate r.length "?") ", " ++ ")"
                ∧ List.Forall₂
                    (fun a (tc : String × String) => coerceCell tc.1 tc.2 = .ok (some a))
                    stmt.args (List.zip (List.zipWith inferColType headers row) r))
              ins (row :: rest) := by
    intro hall
    obtain ⟨ins, hins⟩ := inserts_of_rows tableName headers row (row :: rest)
      (fun r hr => (cells_ok_iff headers row r).mpr (hall r hr))
    have hrun := createTable_run db hdb tableName headers row rest w hrow _ _
      (insertRows_ok db hdb tableName headers (List.zipWith inferColType headers row)
        (row :: rest) _ ins hins (fun r hr => by rw [hct, hw r hr]))
    exact ⟨ins, _, hrun, rfl, hins⟩
  refine ⟨⟨hret, ?_⟩, hfail, fun col => by simp [coerceCell], ?_⟩
  · intro hall
    obtain ⟨ins, w4, hrun, _, _⟩ := hok hall
    rw [hrun]
  · intro h
    obtain ⟨ins, w4, hrun, hst, hins⟩ := hok (hret h)
    refine ⟨ins, by rw [hrun]; exact hst, ?_⟩
    refine forall₂_imp_mem hins ?_
    rintro stmt r hr ⟨hq, hargs⟩
    have hlen := hw r hr
    obtain ⟨h1, h2⟩ := insert_args headers row r stmt.args hrow0 hlen hargs
    exact ⟨by rw [hq, hlen], h1, h2⟩

theorem insertRows_stmts (db : DB) (tableName : String) (headers colTypes : List String)
    (rows : List (List String)) :
    ∀ w : World, ∃ inserts,
      (insertRows db tableName headers colTypes rows w).2.stmts = w.stmts ++ inserts := by
  induction rows with
  | nil => intro w; exact ⟨[], by simp [insertRows]⟩
  | cons r rs ih =>
    intro w
    unfold insertRows
    cases hc : coerceLoop colTypes 0 r [] [] with
    | error e => exact ⟨[], by simp⟩
    | ok am =>
      obtain ⟨args, marks⟩ := am
      simp only []
      split
      · obtain ⟨ins, hins⟩ := ih { w with stmts := w.stmts ++ [({ query := "INSERT INTO " ++ tableName ++ "(" ++ Join headers ", " ++ ") VALUES (" ++ Join marks ", " ++ ")", args := args } : Stmt)] }
        exact ⟨({ query := "INSERT INTO " ++ tableName ++ "(" ++ Join headers ", " ++ ") VALUES (" ++ Join marks ", " ++ ")", args := args } : Stmt) :: ins, by rw [hins]; simp⟩
      · exact ⟨[_], rfl⟩

/-- C7: against a database that accepts every statement, when the first row
with a cell that does not parse under its column type comes after the rows
`pre`, `createTable` ends in `checkErr` on a coercion error, and the statements
it has executed by then are DROP TABLE IF EXISTS, CREATE TABLE and one INSERT
for each row of `pre`, in row order, binding the coerced cells; nothing is
executed for the failing row or a later one, and nothing undoes the rest. -/
theorem C7_no_rollback_on_failure (db : DB) (hdb : ∀ hist s, db hist s = true)
    (tableName : String) (headers row0 : List String) (pre : List (List String))
    (bad : List String) (post : List (List String)) (w : World)
    (hhead : (pre ++ bad :: post).head? = some row0)
    (hw : ∀ r ∈ pre ++ bad :: post, r.length = headers.length)
    (hpre : ∀ r ∈ pre, ∀ (i : Nat) (header c0 c : String),
        headers[i]? = some header → row0[i]? = some c0 → r[i]? = some c →
          (inferColType header c0 = "bigint" → ∃ n, Atoi c = .ok n)
            ∧ (inferColType header c0 = "double" → ∃ v, ParseFloat c = .ok v)
            ∧ (inferColType header c0 = "datetime" → ∃ t, Parse RFC3339Plus c = .ok t))
    (hbad : ∃ (i : Nat) (header c0 c : String),
        headers[i]? = some header ∧ row0[i]? = some c0 ∧ bad[i]? = some c
          ∧ ¬ ((inferColType header c0 = "bigint" → ∃ n, Atoi c = .ok n)
            ∧ (inferColType header c0 = "double" → ∃ v, ParseFloat c = .ok v)
            ∧ (inferColType header c0 = "datetime" → ∃ t, Parse RFC3339Plus c = .ok t))) :
    ∃ (inserts : List Stmt) (e : Fatal),
      (createTable db tableName headers (pre ++ bad :: post) w).1 = .fatal e
        ∧ e ≠ .db ∧ e ≠ .io
        ∧ (createTable db tableName headers (pre ++ bad :: post) w).2.stmts
            = w.stmts
              ++ [{ query := "DROP TABLE IF EXISTS " ++ tableName },
                  { query := "CREATE TABLE " ++ tableName
                      ++ " (id bigint not null auto_increment primary key, "
                      ++ Join (List.zipWith
                          (fun h c => h ++ " " ++ inferColType h c ++ " not null") headers row0) ", "
                      ++ ") CHARACTER SET utf8" }]
              ++ inserts
        ∧ List.Forall₂ (fun (stmt : Stmt) (r : List String) =>
            stmt.query = "INSERT INTO " ++ tableName ++ "(" ++ Join headers ", " ++ ") VALUES ("
              ++ Join (List.replicate headers.length "?") ", " ++ ")"
            ∧ List.Forall₂ (fun a (tc : String × String) => coerceCell tc.1 tc.2 = .ok (some a))
                stmt.args (List.zip (List.zipWith inferColType headers row0) r))
          inserts pre := by
  obtain ⟨rest, hl⟩ : ∃ rest, pre ++ bad :: post = row0 :: rest := by
    cases pre with
    | nil => simp only [List.nil_append, List.head?_cons, Option.some.injEq] at hhead; exact ⟨post, by simp [hhead]⟩
    | cons p ps => simp only [List.cons_append, List.head?_cons, Option.some.injEq] at hhead; exact ⟨ps ++ bad :: post, by simp [hhead]⟩
  have hrow : headers.length ≤ row0.length := by
    rw [hw row0 (by rw [hl]; exact List.mem_cons_self _ _)]
  have hct : (List.zipWith inferColType headers row0).length = headers.length := by
    simp [List.length_zipWith, hw row0 (by rw [hl]; exact List.mem_cons_self _ _)]
  obtain ⟨ins, hins⟩ := inserts_of_rows tableName headers row0 pre
    (fun r hr => (cells_ok_iff headers row0 r).mpr (hpre r hr))
  have hbad2 : ∃ tc ∈ List.zip (List.zipWith inferColType headers row0) bad,
      ¬ ∃ a, coerceCell tc.1 tc.2 = .ok (some a) := by
    obtain ⟨i, header, c0, c, h1, h2, h3, hno⟩ := hbad
    refine ⟨(inferColType header c0, c),
      (mem_zip_types headers row0 bad _).mpr ⟨i, header, c0, c, h1, h2, h3, rfl⟩, ?_⟩
    intro hcon
    exact hno ((coerceCell_four _ _ (inferColType_mem header c0)).1.mp hcon)
  obtain ⟨e, he, hne⟩ := insertRows_fail db hdb tableName headers
    (List.zipWith inferColType headers row0) pre bad post _ ins hins
    (fun r hr => by rw [hct, hw r (List.mem_append_left _ hr)])
    (by rw [hct, hw bad (by simp)])
    (zip_types_cases headers row0 bad) hbad2
  rw [hl] at he
  have hrun := createTable_run db hdb tableName headers row0 rest w hrow _ _ he
  refine ⟨ins, e, ?_, hne.1, hne.2, ?_, ?_⟩
  · rw [hl, hrun]
  · rw [hl, hrun]
  · have hmem : ∀ r ∈ pre, r.length = headers.length :=
      fun r hr => hw r (List.mem_append_left _ hr)
    clear he hrun hl hbad2 hpre hhead hw
    induction hins with
    | nil => exact List.Forall₂.nil
    | cons hab _ ih =>
      refine List.Forall₂.cons ⟨?_, hab.2⟩ (ih (fun r hr => hmem r (List.mem_cons_of_mem _ hr)))
      rw [hab.1, hmem _ (List.mem_cons_self _ _)]

/-- The statements `createTable` has executed when it ends, for a first row at
least as wide as the header: DROP first, then, when the database accepts it,
CREATE with one column per header. -/
theorem createTable_stmts (db : DB) (tableName : String) (headers row : List String)
    (rest : List (List String)) (w : World) (hw : headers.length ≤ row.length) :
    ∃ later,
      (createTable db tableName headers (row :: rest) w).2.stmts
          = w.stmts ++ { query := "DROP TABLE IF EXISTS " ++ tableName } :: later
        ∧ (db w.stmts { query := "DROP TABLE IF EXISTS " ++ tableName } = true →
            ∃ inserts, later
              = { query := "CREATE TABLE " ++ tableName
                    ++ " (id bigint not null auto_increment primary key, "
                    ++ Join (List.zipWith
                        (fun h c => h ++ " " ++ inferColType h c ++ " not null") headers row) ", "
                    ++ ") CHARACTER SET utf8" } :: inserts) := by
  unfold createTable
  simp only [inferLoop_eq row headers 0 [] [] (by simpa using hw), List.drop_zero,
    List.nil_append]
  by_cases h1 : db w.stmts { query := "DROP TABLE IF EXISTS " ++ tableName } = true
  · simp only [h1, not_true_eq_false, if_false, forall_true_left]
    split
    · exact ⟨[_], by simp, ⟨[], rfl⟩⟩
    · rename_i h2
      obtain ⟨ins, hins⟩ := insertRows_stmts db tableName headers
        (List.zipWith inferColType headers row) (row :: rest)
        { stmts := w.stmts ++ [{ query := "DROP TABLE IF EXISTS " ++ tableName }]
            ++ [{ query := "CREATE TABLE " ++ tableName
                    ++ " (id bigint not null auto_increment primary key, "
                    ++ Join (List.zipWith
                        (fun h c => h ++ " " ++ inferColType h c ++ " not null") headers row) ", "
                    ++ ") CHARACTER SET utf8" }],
          log := w.log ++ ["> table " ++ tableName ++ " created ("
                    ++ Join (List.zipWith
                        (fun h c => h ++ " " ++ inferColType h c ++ " not null") headers row) ", "
                    ++ ")"] }
      refine ⟨_ :: ins, ?_, ⟨ins, rfl⟩⟩
      split
      · rename_i w4 heq
        have := congrArg (fun p => p.2.stmts) heq
        simp only [hins] at this
        simp [← this]
      · rename_i r hr
        rw [hins]
        simp
  · simp only [h1, not_false_eq_true, if_true]
    exact ⟨[], by simp, by simp⟩

/-- C8: with an empty row list `createTable` returns without calling `db.Exec`:
no DROP, no CREATE, no INSERT is executed and `checkErr` is not reached, for
every table name, header list and database. -/
theorem C8_empty_rows_issue_nothing (db : DB) (tableName : String) (headers : List String)
    (w : World) :
    (createTable db tableName headers [] w).1 = .returned
      ∧ (createTable db tableName headers [] w).2.stmts = w.stmts := by
  simp [createTable]

/-- C5: when the file opens and both reads succeed, `parseCsv` returns the
header and exactly the raw rows whose field count is the header's, in their
order; a row of another field count is left out and the rows before and after
it are handled as without it; every returned row is as wide as the header. -/
theorem C5_parseCsv_keeps_header_width_rows (header : List String)
    (rawRows : List (List String)) (log : List String) :
    (parseCsv { opens := true, header := some header, rawRows := some rawRows } log).1
        = .ok (header, rawRows.filter (fun row => decide (row.length = header.length)))
      ∧ (∀ row ∈ rawRows.filter (fun row => decide (row.length = header.length)),
          row.length = header.length)
      ∧ (∀ (before after : List (List String)) (row : List String),
          (parseCsv { opens := true, header := some header,
                      rawRows := some (before ++ row :: after) } log).1
            = .ok (header, before.filter (fun r => decide (r.length = header.length))
                ++ (if row.length = header.length then [row] else [])
                ++ after.filter (fun r => decide (r.length = header.length)))) := by
  have key : ∀ raw : List (List String),
      (parseCsv { opens := true, header := some header, rawRows := some raw } log).1
        = .ok (header, raw.filter (fun row => decide (row.length = header.length))) := by
    intro raw
    have h := filterRows_fst header raw [] log
    simp only [List.nil_append] at h
    simp only [parseCsv]
    rw [← h]
    rfl
  refine ⟨key rawRows, ?_, ?_⟩
  · intro row hrow
    simpa using (List.mem_filter.mp hrow).2
  · intro before after row
    rw [key]
    by_cases h : row.length = header.length <;> simp [List.filter_append, List.filter_cons, h]

/-- C10: on a non-empty list of header-width rows `createTable` first executes
DROP TABLE IF EXISTS for the table name and, when the database accepts it, next
the CREATE TABLE statement that declares `id bigint not null auto_increment
primary key` and then one column `<header> <inferred type> not null` per header,
in header order; its text depends on the table name, the headers and the first
row only, so it is the same for any two row lists with the same first row. -/
theorem C10_create_table_statement (db : DB) (tableName : String)
    (headers row : List String) (rest : List (List String)) (w : World)
    (hw : ∀ r ∈ row :: rest, r.length = headers.length) :
    (∃ later,
      (createTable db tableName headers (row :: rest) w).2.stmts
          = w.stmts ++ { query := "DROP TABLE IF EXISTS " ++ tableName } :: later
        ∧ (db w.stmts { query := "DROP TABLE IF EXISTS " ++ tableName } = true →
            ∃ inserts, later
              = { query := "CREATE TABLE " ++ tableName
                    ++ " (id bigint not null auto_increment primary key, "
                    ++ Join (List.zipWith
                        (fun h c => h ++ " " ++ inferColType h c ++ " not null") headers row) ", "
                    ++ ") CHARACTER SET utf8" } :: inserts))
      ∧ (List.zipWith (fun h c => h ++ " " ++ inferColType h c ++ " not null")
            headers row).length = headers.length
      ∧ ∀ (i : Nat) (header : String), headers[i]? = some header →
          ∃ c, row[i]? = some c
            ∧ (List.zipWith (fun h c => h ++ " " ++ inferColType h c ++ " not null")
                headers row)[i]? = some (header ++ " " ++ inferColType header c ++ " not null") := by
  have hrow : row.length = headers.length := hw row (List.mem_cons_self _ _)
  refine ⟨createTable_stmts db tableName headers row rest w (by rw [hrow]), ?_, ?_⟩
  · simp [List.length_zipWith, hrow]
  · intro i header hi
    have hlt : i < headers.length := by
      rcases Nat.lt_or_ge i headers.length with h | h
      · exact h
      · rw [List.getElem?_eq_none h] at hi; exact absurd hi (by simp)
    have hlt2 : i < row.length := by rw [hrow]; exact hlt
    refine ⟨row[i], List.getElem?_eq_getElem hlt2, ?_⟩
    rw [List.getElem?_zipWith_eq_some]
    exact ⟨header, row[i], hi, List.getElem?_eq_getElem hlt2, rfl⟩

theorem replaceScan_dash (s : List Char) :
    ∀ fuel, s.length ≤ fuel →
      replaceScan ['-'] ['_'] fuel s = s.map (fun c => if c = '-' then '_' else c) := by
  induction s with
  | nil => intro fuel _; cases fuel <;> simp [replaceScan]
  | cons c cs ih =>
    intro fuel hf
    cases fuel with
    | zero => simp at hf
    | succ n =>
      have hn : cs.length ≤ n := by simpa using hf
      by_cases hc : c = '-'
      · subst hc
        simp [replaceScan, List.isPrefixOf, ih n hn]
      · have : ('-' == c) = false := by simpa using fun h => hc h.symm
        simp [replaceScan, List.isPrefixOf, ih n hn, hc, this]

theorem tableNameOf_csv (stem : String) :
    tableNameOf (stem ++ ".csv")
      = some (String.mk (stem.data.map (fun c => if c = '-' then '_' else c))) := by
  have hdata : (stem ++ ".csv").data = stem.data ++ ".csv".data := String.data_append _ _
  have hsuf : HasSuffix (stem ++ ".csv") ".csv" = true := by
    unfold HasSuffix
    rw [List.isSuffixOf_iff_suffix, hdata]
    exact List.suffix_append _ _
  have htake : (stem ++ ".csv").data.take ((stem ++ ".csv").data.length - ".csv".length)
      = stem.data := by
    rw [hdata]
    have : (".csv" : String).length = (".csv" : String).data.length := rfl
    rw [this, List.length_append, Nat.add_sub_cancel, List.take_left']
    rfl
  unfold tableNameOf
  simp only [hsuf, not_true_eq_false, if_false, htake]
  unfold ReplaceAll
  have h1 : ("-" : String).data = ['-'] := rfl
  have h2 : ("_" : String).data = ['_'] := rfl
  simp only [h1, h2, List.cons_ne_nil, if_false]
  rw [replaceScan_dash _ _ (le_refl _)]

/-- C9: the table name of a file name that ends in ".csv" is the name without
that ending and with every hyphen turned into an underscore, so it holds no
hyphen; "sales-2023.csv" gives "sales_2023"; a file name that does not end in
".csv" has no table name and the loop of `main` passes over it, executing no
statement and writing no log line for it. -/
theorem C9_table_name_of_file (filename : String) :
    (HasSuffix filename ".csv" = true →
        ∃ stem : String, filename = stem ++ ".csv"
          ∧ tableNameOf filename
              = some (String.mk (stem.data.map (fun c => if c = '-' then '_' else c)))
          ∧ ∀ name, tableNameOf filename = some name → '-' ∉ name.data)
      ∧ (HasSuffix filename ".csv" = false →
          tableNameOf filename = none
            ∧ ∀ (db : DB) (file : CsvSource) (rest : List (String × CsvSource)) (w : World),
                mainLoop db ((filename, file) :: rest) w = mainLoop db rest w)
      ∧ tableNameOf "sales-2023.csv" = some "sales_2023" := by
  refine ⟨?_, ?_, by decide⟩
  · intro h
    unfold HasSuffix at h
    rw [List.isSuffixOf_iff_suffix] at h
    obtain ⟨pre, hpre⟩ := h
    have hf : filename = String.mk pre ++ ".csv" := by
      apply String.ext
      rw [String.data_append, ← hpre]
    refine ⟨String.mk pre, hf, ?_, ?_⟩
    · rw [hf, tableNameOf_csv]
    · intro name hname
      rw [hf, tableNameOf_csv] at hname
      simp only [Option.some.injEq] at hname
      subst hname
      simp only [List.mem_map, not_exists, not_and]
      intro c _
      by_cases hc : c = '-'
      · simp [hc]
      · simp [hc]
  · intro h
    have hn : tableNameOf filename = none := by simp [tableNameOf, h]
    refine ⟨hn, ?_⟩
    intro db file rest w
    rw [mainLoop, hn]

/-- C1: in `createTable` the type of column `i`, for a first row at least as
wide as the header, is decided by `headers[i]` and `rows[0][i]` alone, first
match first: bigint when the cell parses with `strconv.Atoi` and the header
does not start with "pct", else double when it parses with
`strconv.ParseFloat`, else datetime when it parses with `time.Parse` under
`RFC3339Plus`, else text; it is one of these four. -/
theorem C1_type_inferred_from_first_row (headers row : List String) (i : Nat)
    (hw : headers.length ≤ row.length) (hi : i < headers.length) :
    ∃ columns colTypes header col ty,
      inferLoop row 0 headers [] [] = some (columns, colTypes)
        ∧ headers[i]? = some header ∧ row[i]? = some col ∧ colTypes[i]? = some ty
        ∧ (ty = "bigint" ↔ (∃ n, Atoi col = .ok n) ∧ HasPrefix header "pct" = false)
        ∧ (ty = "double" ↔ ¬ ((∃ n, Atoi col = .ok n) ∧ HasPrefix header "pct" = false)
              ∧ ∃ v, ParseFloat col = .ok v)
        ∧ (ty = "datetime" ↔ ¬ ((∃ n, Atoi col = .ok n) ∧ HasPrefix header "pct" = false)
              ∧ (¬ ∃ v, ParseFloat col = .ok v) ∧ ∃ t, Parse RFC3339Plus col = .ok t)
        ∧ (ty = "text" ↔ ¬ ((∃ n, Atoi col = .ok n) ∧ HasPrefix header "pct" = false)
              ∧ (¬ ∃ v, ParseFloat col = .ok v) ∧ ¬ ∃ t, Parse RFC3339Plus col = .ok t)
        ∧ (ty = "bigint" ∨ ty = "double" ∨ ty = "datetime" ∨ ty = "text") := by
  have hir : i < row.length := by omega
  obtain ⟨s1, s2, s3, s4⟩ := inferColType_spec headers[i] row[i]
  refine ⟨_, _, headers[i], row[i], inferColType headers[i] row[i],
    by simpa using inferLoop_eq row headers 0 [] [] (by simpa using hw),
    List.getElem?_eq_getElem hi, List.getElem?_eq_getElem hir, ?_, s1, s2, s3, s4,
    inferColType_mem _ _⟩
  simp [List.getElem?_zipWith, List.getElem?_eq_getElem hi, List.getElem?_eq_getElem hir]

/-! ## What `time.Parse` accepts under `RFC3339Plus` -/

theorem skipLoop_suffix : ∀ (fuel : Nat) (value pre v : List Char),
    skipLoop fuel value pre = some v → v <:+ value := by
  intro fuel
  induction fuel with
  | zero =>
    intro value pre v h
    cases pre with
    | nil => simp only [skipLoop, Option.some.injEq] at h; exact h ▸ List.suffix_refl _
    | cons p ps => simp [skipLoop] at h
  | succ n ih =>
    intro value pre v h
    cases pre with
    | nil => simp only [skipLoop, Option.some.injEq] at h; exact h ▸ List.suffix_refl _
    | cons p ps =>
      unfold skipLoop at h
      split at h
      · split at h
        · split at h
          · exact absurd h (by simp)
          · exact (ih _ _ _ h).trans (List.dropWhile_suffix _)
        · exact (ih _ _ _ h).trans (List.dropWhile_suffix _)
      · split at h
        · exact absurd h (by simp)
        · split at h
          · exact absurd h (by simp)
          · exact (ih _ _ _ h).trans (List.suffix_cons _ _)

theorem skipLoop_literal : ∀ (fuel : Nat) (value pre r : List Char),
    (∀ c ∈ pre, c ≠ ' ') → skipLoop fuel value pre = some r → value = pre ++ r := by
  intro fuel
  induction fuel with
  | zero =>
    intro value pre r _ h
    cases pre with
    | nil => simp only [skipLoop, Option.some.injEq] at h; simp [h]
    | cons p ps => simp [skipLoop] at h
  | succ n ih =>
    intro value pre r hsp h
    cases pre with
    | nil => simp only [skipLoop, Option.some.injEq] at h; simp [h]
    | cons p ps =>
      have hp : p ≠ ' ' := hsp p (List.mem_cons_self _ _)
      unfold skipLoop at h
      simp only [hp, if_false] at h
      split at h
      · exact absurd h (by simp)
      · rename_i v vs
        split at h
        · exact absurd h (by simp)
        · rename_i hv
          have hv2 : v = p := by simpa using hv
          have := ih vs ps r (fun c hc => hsp c (List.mem_cons_of_mem _ hc)) h
          simp [hv2, this]

theorem getnum_suffix (s : List Char) (fixed : Bool) (n : Int) (rest : List Char)
    (h : getnum s fixed = some (n, rest)) : rest <:+ s := by
  unfold getnum at h
  split at h
  · rename_i c0 c1 r
    split at h
    · exact absurd h (by simp)
    · split at h
      · split at h
        · exact absurd h (by simp)
        · simp only [Option.some.injEq, Prod.mk.injEq] at h
          exact h.2 ▸ List.suffix_cons _ _
      · simp only [Option.some.injEq, Prod.mk.injEq] at h
        exact h.2 ▸ (List.suffix_cons _ _).trans (List.suffix_cons _ _)
  · split at h
    · exact absurd h (by simp)
    · split at h
      · exact absurd h (by simp)
      · simp only [Option.some.injEq, Prod.mk.injEq] at h
        exact h.2 ▸ List.nil_suffix
  · exact absurd h (by simp)

theorem getnum_result_suffix (value : List Char) (fixed : Bool) (F : Int → List Char → Option (Option (List Char × Time)))
    (v2 : List Char) (t2 : Time)
    (hF : ∀ m rest, F m rest = some (some (v2, t2)) → v2 <:+ rest)
    (h : (match getnum value fixed with
          | none => some none
          | some (m, rest) => F m rest) = some (some (v2, t2))) : v2 <:+ value := by
  cases hg : getnum value fixed with
  | none => rw [hg] at h; exact absurd h (by simp)
  | some p =>
    obtain ⟨m, rest⟩ := p
    rw [hg] at h
    exact (hF m rest h).trans (getnum_suffix _ _ _ _ hg)

theorem parseStd_suffix (std : Std) (layout value : List Char) (t : Time)
    (v2 : List Char) (t2 : Time)
    (h : parseStd std layout value t = some (some (v2, t2))) : v2 <:+ value := by
  cases std
  case stdLongYear =>
    simp only [parseStd] at h
    split at h
    · split at h
      · exact absurd h (by simp)
      · split at h
        · exact absurd h (by simp)
        · simp only [Option.some.injEq, Prod.mk.injEq] at h
          rw [← h.1]
          exact ⟨[_, _, _, _], rfl⟩
    · exact absurd h (by simp)
  case stdNumMonth =>
    simp only [parseStd] at h
    refine getnum_result_suffix _ _ _ v2 t2 ?_ h
    intro m rest hm
    split at hm
    · exact absurd hm (by simp)
    · simp only [Option.some.injEq, Prod.mk.injEq] at hm; exact hm.1 ▸ List.suffix_refl _
  case stdZeroMonth =>
    simp only [parseStd] at h
    refine getnum_result_suffix _ _ _ v2 t2 ?_ h
    intro m rest hm
    split at hm
    · exact absurd hm (by simp)
    · simp only [Option.some.injEq, Prod.mk.injEq] at hm; exact hm.1 ▸ List.suffix_refl _
  case stdHour =>
    simp only [parseStd] at h
    refine getnum_result_suffix _ _ _ v2 t2 ?_ h
    intro m rest hm
    split at hm
    · exact absurd hm (by simp)
    · simp only [Option.some.injEq, Prod.mk.injEq] at hm; exact hm.1 ▸ List.suffix_refl _
  case stdMinute =>
    simp only [parseStd] at h
    refine getnum_result_suffix _ _ _ v2 t2 ?_ h
    intro m rest hm
    split at hm
    · exact absurd hm (by simp)
    · simp only [Option.some.injEq, Prod.mk.injEq] at hm; exact hm.1 ▸ List.suffix_refl _
  case stdZeroMinute =>
    simp only [parseStd] at h
    refine getnum_result_suffix _ _ _ v2 t2 ?_ h
    intro m rest hm
    split at hm
    · exact absurd hm (by simp)
    · simp only [Option.some.injEq, Prod.mk.injEq] at hm; exact hm.1 ▸ List.suffix_refl _
  case stdDay =>
    simp only [parseStd] at h
    refine (getnum_result_suffix _ _ _ v2 t2 ?_ h).trans ?_
    · intro m rest hm
      simp only [Option.some.injEq, Prod.mk.injEq] at hm; exact hm.1 ▸ List.suffix_refl _
    · cases value with
      | nil => exact List.suffix_refl _
      | cons c cs =>
        simp only []
        split
        · exact List.suffix_cons _ _
        · exact List.suffix_refl _
  case stdUnderDay =>
    simp only [parseStd] at h
    refine (getnum_result_suffix _ _ _ v2 t2 ?_ h).trans ?_
    · intro m rest hm
      simp only [Option.some.injEq, Prod.mk.injEq] at hm; exact hm.1 ▸ List.suffix_refl _
    · cases value with
      | nil => exact List.suffix_refl _
      | cons c cs =>
        simp only []
        split
        · exact List.suffix_cons _ _
        · exact List.suffix_refl _
  case stdZeroDay =>
    simp only [parseStd] at h
    refine (getnum_result_suffix _ _ _ v2 t2 ?_ h).trans ?_
    · intro m rest hm
      simp only [Option.some.injEq, Prod.mk.injEq] at hm; exact hm.1 ▸ List.suffix_refl _
    · cases value with
      | nil => exact List.suffix_refl _
      | cons c cs =>
        simp only []
        split
        · exact List.suffix_cons _ _
        · exact List.suffix_refl _
  case stdSecond =>
    simp only [parseStd] at h
    refine getnum_result_suffix _ _ _ v2 t2 ?_ h
    intro m rest hm
    split at hm
    · exact absurd hm (by simp)
    · split at hm
      · split at hm
        · split at hm
          · simp only [Option.some.injEq, Prod.mk.injEq] at hm; exact hm.1 ▸ List.suffix_refl _
          · simp only [Option.some.injEq, Prod.mk.injEq] at hm; exact hm.1 ▸ List.suffix_refl _
          · split at hm
            · exact absurd hm (by simp)
            · simp only [Option.some.injEq, Prod.mk.injEq] at hm
              exact hm.1 ▸ List.drop_suffix _ _
        · simp only [Option.some.injEq, Prod.mk.injEq] at hm; exact hm.1 ▸ List.suffix_refl _
      · simp only [Option.some.injEq, Prod.mk.injEq] at hm; exact hm.1 ▸ List.suffix_refl _
  case stdZeroSecond =>
    simp only [parseStd] at h
    refine getnum_result_suffix _ _ _ v2 t2 ?_ h
    intro m rest hm
    split at hm
    · exact absurd hm (by simp)
    · split at hm
      · split at hm
        · split at hm
          · simp only [Option.some.injEq, Prod.mk.injEq] at hm; exact hm.1 ▸ List.suffix_refl _
          · simp only [Option.some.injEq, Prod.mk.injEq] at hm; exact hm.1 ▸ List.suffix_refl _
          · split at hm
            · exact absurd hm (by simp)
            · simp only [Option.some.injEq, Prod.mk.injEq] at hm
              exact hm.1 ▸ List.drop_suffix _ _
        · simp only [Option.some.injEq, Prod.mk.injEq] at hm; exact hm.1 ▸ List.suffix_refl _
      · simp only [Option.some.injEq, Prod.mk.injEq] at hm; exact hm.1 ▸ List.suffix_refl _
  all_goals (simp only [parseStd] at h; exact absurd h (Option.noConfusion))

theorem parseLoop_final : ∀ (fuel : Nat) (layout value : List Char) (t r : Time),
    parseLoop fuel layout value t = .ok r →
      ∃ pre v0, finalLiteral fuel layout = some pre ∧ v0 <:+ value ∧ skip v0 pre = some [] := by
  intro fuel
  induction fuel with
  | zero => intro layout value t r h; simp [parseLoop] at h
  | succ n ih =>
    intro layout value t r h
    unfold parseLoop at h
    unfold finalLiteral
    rcases hc : nextStdChunk layout with ⟨pre, std, suffix⟩
    rw [hc] at h
    simp only [] at h ⊢
    cases hs : skip value pre with
    | none => rw [hs] at h; exact absurd h (by simp)
    | some v1 =>
      rw [hs] at h
      simp only [] at h
      have hv1 : v1 <:+ value := skipLoop_suffix _ _ _ _ hs
      cases std with
      | none =>
        simp only [] at h ⊢
        by_cases hv : v1 = []
        · subst hv
          exact ⟨pre, value, rfl, List.suffix_refl _, hs⟩
        · simp [hv] at h
      | some sd =>
        simp only [] at h ⊢
        cases hp : parseStd sd suffix v1 t with
        | none => rw [hp] at h; exact absurd h (by simp)
        | some o =>
          cases o with
          | none => rw [hp] at h; exact absurd h (by simp)
          | some p =>
            obtain ⟨v2, t2⟩ := p
            rw [hp] at h
            obtain ⟨pre2, v0, h1, h2, h3⟩ := ih _ _ _ _ h
            exact ⟨pre2, v0, h1, (h2.trans (parseStd_suffix _ _ _ _ _ _ hp)).trans hv1, h3⟩

/-- A value `time.Parse` accepts under `RFC3339Plus` ends with the text
"+07:00": the layout has no zone element, its last six bytes are literal. -/
theorem Parse_RFC3339Plus_suffix (value : String) (t : Time)
    (h : Parse RFC3339Plus value = .ok t) : "+07:00".data <:+ value.data := by
  obtain ⟨pre, v0, h1, h2, h3⟩ := parseLoop_final _ _ _ _ _ h
  have hpre : pre = "+07:00".data := by
    have : finalLiteral (RFC3339Plus.data.length + 1) RFC3339Plus.data = some "+07:00".data := by
      decide
    rw [this] at h1
    exact (Option.some.inj h1).symm
  subst hpre
  have := skipLoop_literal _ _ _ _ (by decide) h3
  rw [List.append_nil] at this
  exact this ▸ h2

/-! ## What `strconv.Atoi` accepts -/

theorem isDigitChar_iff (c : Char) : isDigitChar c = true ↔ 48 ≤ c.toNat ∧ c.toNat ≤ 57 := by
  unfold isDigitChar
  simp only [Bool.and_eq_true, decide_eq_true_eq, Char.le_def]
  constructor
  · rintro ⟨h1, h2⟩
    exact ⟨h1, h2⟩
  · rintro ⟨h1, h2⟩
    exact ⟨h1, h2⟩

theorem digitVal_le (c : Char) (h : isDigitChar c = true) : digitVal c ≤ 9 := by
  rw [isDigitChar_iff] at h
  unfold digitVal
  omega

theorem lower_digit (c : Char) (h : isDigitChar c = true) : lower c = c.toNat := by
  rw [isDigitChar_iff] at h
  obtain ⟨h1, h2⟩ := h
  unfold lower
  interval_cases c.toNat <;> rfl

theorem byteLen_ge (s : List Char) : s.length ≤ byteLen s := by
  induction s with
  | nil => simp [byteLen]
  | cons c cs ih =>
    have := Char.utf8Size_pos c
    simp only [byteLen, List.length_cons]
    omega

theorem atoiFast_ok : ∀ (s : List Char) (n m : Nat), atoiFast s n = .ok m →
    (∀ c ∈ s, isDigitChar c = true) ∧ m = s.foldl (fun a c => a * 10 + digitVal c) n := by
  intro s
  induction s with
  | nil => intro n m h; simp only [atoiFast, Except.ok.injEq] at h; simp [h]
  | cons c cs ih =>
    intro n m h
    unfold atoiFast at h
    split at h
    · rename_i hc
      obtain ⟨h1, h2⟩ := ih _ _ h
      refine ⟨?_, by simpa using h2⟩
      intro x hx
      rcases List.mem_cons.mp hx with rfl | hx
      · exact hc
      · exact h1 x hx
    · exact absurd h (by simp)

theorem parseUintLoop_ok (maxVal : Nat) : ∀ (s : List Char) (n m : Nat),
    parseUintLoop maxVal s n = .ok m →
      (∀ c ∈ s, isDigitChar c = true) ∧ m = s.foldl (fun a c => a * 10 + digitVal c) n
        ∧ (s ≠ [] → m ≤ maxVal) := by
  intro s
  induction s with
  | nil => intro n m h; simp only [parseUintLoop, Except.ok.injEq] at h; simp [h]
  | cons c cs ih =>
    intro n m h
    unfold parseUintLoop at h
    by_cases hc : isDigitChar c = true
    · simp only [hc, if_true] at h
      have hd := digitVal_le c hc
      split at h
      · exact absurd h (by simp)
      · split at h
        · exact absurd h (by simp)
        · rename_i hcut
          split at h
          · exact absurd h (by simp)
          · rename_i hov
            have hn : n * 10 % 2 ^ 64 = n * 10 := by
              apply Nat.mod_eq_of_lt
              norm_num at hcut ⊢
              omega
            rw [hn] at h hov
            have hn1 : (n * 10 + digitVal c) % 2 ^ 64 = n * 10 + digitVal c := by
              apply Nat.mod_eq_of_lt
              by_contra hge
              apply hov
              left
              norm_num at hge ⊢
              omega
            rw [hn1] at h hov
            obtain ⟨h1, h2, h3⟩ := ih _ _ h
            refine ⟨?_, by simpa using h2, ?_⟩
            · intro x hx
              rcases List.mem_cons.mp hx with rfl | hx
              · exact hc
              · exact h1 x hx
            · intro _
              by_cases hcs : cs = []
              · subst hcs
                simp only [parseUintLoop, Except.ok.injEq] at h
                omega
              · exact h3 hcs
    · simp only [hc, Bool.false_eq_true, if_false] at h
      by_cases hl : 97 ≤ lower c ∧ lower c ≤ 122
      · simp only [hl, and_self, if_true] at h
        have : lower c - 97 + 10 ≥ 10 := by omega
        simp only [this, if_true] at h
        exact absurd h (by simp)
      · simp only [hl, if_false] at h
        exact absurd h (by simp)

theorem foldl_digits_lt : ∀ (ds : List Char) (n : Nat), (∀ c ∈ ds, isDigitChar c = true) →
    ds.foldl (fun a c => a * 10 + digitVal c) n < (n + 1) * 10 ^ ds.length := by
  intro ds
  induction ds with
  | nil => intro n _; simp
  | cons c cs ih =>
    intro n h
    have hd := digitVal_le c (h c (List.mem_cons_self _ _))
    have := ih (n * 10 + digitVal c) (fun x hx => h x (List.mem_cons_of_mem _ hx))
    simp only [List.foldl_cons, List.length_cons, pow_succ]
    calc List.foldl (fun a c => a * 10 + digitVal c) (n * 10 + digitVal c) cs
        < (n * 10 + digitVal c + 1) * 10 ^ cs.length := this
      _ ≤ ((n + 1) * 10) * 10 ^ cs.length := Nat.mul_le_mul_right _ (by omega)
      _ = (n + 1) * (10 ^ cs.length * 10) := by ring

/-- A string `strconv.Atoi` accepts is an optional sign and at least one
decimal digit, and the number the digits spell is below `2^64`. -/
theorem Atoi_ok_shape (s : String) (n : Int) (h : Atoi s = .ok n) :
    ∃ sign ds, s.data = sign ++ ds ∧ (sign = [] ∨ sign = ['+'] ∨ sign = ['-']) ∧ ds ≠ []
      ∧ (∀ c ∈ ds, isDigitChar c = true)
      ∧ ds.foldl (fun a c => a * 10 + digitVal c) 0 < 2 ^ 64 := by
  have hbound : ∀ ds : List Char, ds.length < 19 → (∀ c ∈ ds, isDigitChar c = true) →
      ds.foldl (fun a c => a * 10 + digitVal c) 0 < 2 ^ 64 := by
    intro ds hds hdig
    have h2 := foldl_digits_lt ds 0 hdig
    have h3 : 10 ^ ds.length ≤ 10 ^ 18 := Nat.pow_le_pow_right (by norm_num) (by omega)
    calc _ < (0 + 1) * 10 ^ ds.length := h2
      _ ≤ 10 ^ 18 := by simpa using h3
      _ < 2 ^ 64 := by norm_num
  have hfast : ∀ body : List Char, body.length < 19 → ¬ body.length < 1 →
      (∃ m, atoiFast body 0 = .ok m) →
      body ≠ [] ∧ (∀ c ∈ body, isDigitChar c = true)
        ∧ body.foldl (fun a c => a * 10 + digitVal c) 0 < 2 ^ 64 := by
    rintro body hl hb ⟨m, hm⟩
    obtain ⟨h1, _⟩ := atoiFast_ok _ _ _ hm
    refine ⟨?_, h1, hbound body hl h1⟩
    intro hr; subst hr; simp at hb
  have hslow : ∀ body : List Char, (∃ un, ParseUint10 body intSize = .ok un) →
      body ≠ [] ∧ (∀ c ∈ body, isDigitChar c = true)
        ∧ body.foldl (fun a c => a * 10 + digitVal c) 0 < 2 ^ 64 := by
    rintro body ⟨un, hu⟩
    unfold ParseUint10 at hu
    split at hu
    · exact absurd hu (by simp)
    · rename_i hne
      obtain ⟨h1, h2, h3⟩ := parseUintLoop_ok _ _ _ _ hu
      refine ⟨hne, h1, ?_⟩
      have := h3 hne
      rw [h2] at this
      unfold intSize at this
      have h64 : (2 : Nat) ^ 64 - 1 < 2 ^ 64 := by norm_num
      omega
  unfold Atoi at h
  simp only [] at h
  by_cases hlen : 0 < byteLen s.data ∧ byteLen s.data < 19
  · simp only [hlen, and_self, if_true] at h
    have hl : s.data.length < 19 := lt_of_le_of_lt (byteLen_ge _) hlen.2
    cases hd : s.data with
    | nil => rw [hd] at h; exact absurd h (by simp)
    | cons c rest =>
      rw [hd] at h hl
      simp only [] at h
      by_cases hs : c = '-' ∨ c = '+'
      · simp only [hs, if_true] at h
        by_cases hb : rest.length < 1
        · simp only [hb, if_true] at h; exact absurd h (by simp)
        · simp only [hb, if_false] at h
          cases ha : atoiFast rest 0 with
          | error e => rw [ha] at h; exact absurd h (by simp)
          | ok m =>
            obtain ⟨h1, h2, h3⟩ := hfast rest (by simp only [List.length_cons] at hl; omega)
              hb ⟨m, ha⟩
            refine ⟨[c], rest, rfl, ?_, h1, h2, h3⟩
            rcases hs with rfl | rfl <;> simp
      · simp only [hs, if_false] at h
        by_cases hb : (c :: rest).length < 1
        · simp only [hb, if_true] at h; exact absurd h (by simp)
        · simp only [hb, if_false] at h
          cases ha : atoiFast (c :: rest) 0 with
          | error e => rw [ha] at h; exact absurd h (by simp)
          | ok m =>
            obtain ⟨h1, h2, h3⟩ := hfast (c :: rest) hl hb ⟨m, ha⟩
            exact ⟨[], c :: rest, rfl, Or.inl rfl, h1, h2, h3⟩
  · simp only [hlen, if_false] at h
    unfold ParseInt10 at h
    cases hd : s.data with
    | nil => rw [hd] at h; exact absurd h (by simp)
    | cons c rest =>
      rw [hd] at h
      simp only [] at h
      by_cases hs : c = '+' ∨ c = '-'
      · simp only [hs, if_true] at h
        cases hu : ParseUint10 rest intSize with
        | error e => rw [hu] at h; cases e <;> exact absurd h (by simp)
        | ok un =>
          obtain ⟨h1, h2, h3⟩ := hslow rest ⟨un, hu⟩
          refine ⟨[c], rest, rfl, ?_, h1, h2, h3⟩
          rcases hs with rfl | rfl <;> simp
      · simp only [hs, if_false] at h
        cases hu : ParseUint10 (c :: rest) intSize with
        | error e => rw [hu] at h; cases e <;> exact absurd h (by simp)
        | ok un =>
          obtain ⟨h1, h2, h3⟩ := hslow (c :: rest) ⟨un, hu⟩
          exact ⟨[], c :: rest, rfl, Or.inl rfl, h1, h2, h3⟩

/-! ## `strconv.ParseFloat` on what `strconv.Atoi` accepts -/

theorem digit_ne (c : Char) (h : isDigitChar c = true) :
    c ≠ '+' ∧ c ≠ '-' ∧ c ≠ '_' ∧ c ≠ '.' ∧ c ≠ 'i' ∧ c ≠ 'I' ∧ c ≠ 'n' ∧ c ≠ 'N'
      ∧ ¬ ('A' ≤ c ∧ c ≤ 'Z') ∧ c.toNat ≠ 105 ∧ lower c ≠ 120 := by
  have hl := lower_digit c h
  rw [isDigitChar_iff] at h
  refine ⟨?_, ?_, ?_, ?_, ?_, ?_, ?_, ?_, ?_, ?_, ?_⟩
  · rintro rfl; revert h; decide
  · rintro rfl; revert h; decide
  · rintro rfl; revert h; decide
  · rintro rfl; revert h; decide
  · rintro rfl; revert h; decide
  · rintro rfl; revert h; decide
  · rintro rfl; revert h; decide
  · rintro rfl; revert h; decide
  · rintro ⟨h1, _⟩
    rw [Char.le_def] at h1
    have : (65 : Nat) ≤ c.toNat := h1
    omega
  · omega
  · omega

theorem readDigits_digits : ∀ (ds : List Char) (st : ReadState),
    (∀ c ∈ ds, isDigitChar c = true) → st.sawdot = false → (st.nd = 0 → st.mantissa = 0) →
      (readDigits 10 ds st).2 = []
        ∧ (readDigits 10 ds st).1.sawdot = false
        ∧ (readDigits 10 ds st).1.underscores = st.underscores
        ∧ (ds ≠ [] → (readDigits 10 ds st).1.sawdigits = true)
        ∧ (readDigits 10 ds st).1.mantissa = ds.foldl (fun a c => a * 10 + digitVal c) st.mantissa
        ∧ ((readDigits 10 ds st).1.nd = 0 → (readDigits 10 ds st).1.mantissa = 0) := by
  intro ds
  induction ds with
  | nil => intro st _ h1 h2; exact ⟨rfl, h1, rfl, fun h => absurd rfl h, rfl, h2⟩
  | cons c cs ih =>
    intro st hd h1 h2
    have hc := hd c (List.mem_cons_self _ _)
    obtain ⟨_, _, n3, n4, _⟩ := digit_ne c hc
    have hcs : ∀ x ∈ cs, isDigitChar x = true := fun x hx => hd x (List.mem_cons_of_mem _ hx)
    unfold readDigits
    simp only [n3, n4, if_false, hc, if_true]
    by_cases hz : c = '0' ∧ st.nd = 0
    · rw [if_pos hz]
      obtain ⟨r1, r2, r3, r4, r5, r6⟩ := ih { st with sawdigits := true, dp := st.dp - 1 }
        hcs h1 h2
      refine ⟨r1, r2, r3, ?_, ?_, r6⟩
      · intro _
        by_cases hcs0 : cs = []
        · subst hcs0; simp [readDigits]
        · exact r4 hcs0
      · rw [r5]
        have hm : st.mantissa = 0 := h2 hz.2
        have hv : digitVal c = 0 := by rw [hz.1]; rfl
        simp [hm, hv]
    · rw [if_neg hz]
      obtain ⟨r1, r2, r3, r4, r5, r6⟩ := ih
        { st with sawdigits := true, nd := st.nd + 1,
                  mantissa := st.mantissa * 10 + digitVal c }
        hcs h1 (by intro h; simp at h)
      refine ⟨r1, r2, r3, ?_, ?_, r6⟩
      · intro _
        by_cases hcs0 : cs = []
        · subst hcs0; simp [readDigits]
        · exact r4 hcs0
      · rw [r5]; simp

theorem hexPrefix_digits (t : List Char) (hd : ∀ x ∈ t, isDigitChar x = true) :
    hexPrefix t = false := by
  unfold hexPrefix
  split
  · rename_i c0 c1 c2 r
    have := (digit_ne c1 (hd c1 (by simp))).2.2.2.2.2.2.2.2.2.2
    simp [this]
  · rfl

theorem readFloat_digits (c : Char) (rest t : List Char)
    (ht : t = if c = '+' ∨ c = '-' then rest else c :: rest)
    (hd : ∀ x ∈ t, isDigitChar x = true) (hne : t ≠ []) :
    readFloat (c :: rest)
      = some (.num (decide (c = '-')) false (t.foldl (fun a x => a * 10 + digitVal x) 0) 0, []) := by
  obtain ⟨r1, r2, r3, r4, r5, r6⟩ := readDigits_digits t {} hd rfl (fun _ => rfl)
  have r4 := r4 hne
  simp only [] at r3 r5
  unfold readFloat
  simp only [← ht, hexPrefix_digits t hd, Bool.false_eq_true, if_false, r4, not_true_eq_false, r1,
    r2]
  unfold readFloatExp
  simp only [Bool.false_eq_true, if_false, r3]
  unfold readFloatEnd
  simp only [Bool.false_eq_true, if_false, false_and, r5]
  by_cases hm : List.foldl (fun a x => a * 10 + digitVal x) 0 t = 0
  · simp [hm]
  · simp [hm]

theorem special_digits (c : Char) (rest t : List Char)
    (ht : t = if c = '+' ∨ c = '-' then rest else c :: rest)
    (hd : ∀ x ∈ t, isDigitChar x = true) (hne : t ≠ []) :
    special (c :: rest) = none := by
  unfold special
  by_cases hs : c = '+' ∨ c = '-'
  · simp only [hs, if_true] at ht ⊢
    subst ht
    cases t with
    | nil => exact absurd rfl hne
    | cons d ds =>
      obtain ⟨_, _, _, _, _, _, _, _, n9, n10, _⟩ := digit_ne d (hd d (List.mem_cons_self _ _))
      have : commonPrefixLenIgnoreCase (d :: ds) "infinity".data = 0 := by
        show commonPrefixLenIgnoreCase (d :: ds) ('i' :: "nfinity".data) = 0
        unfold commonPrefixLenIgnoreCase foldAZ
        simp only [n9, if_false]
        have : d.toNat ≠ 'i'.toNat := n10
        simp only [ne_eq, this, not_false_eq_true, if_true]
      simp [specialInf, this]
  · simp only [hs, if_false] at ht ⊢
    subst ht
    obtain ⟨_, _, _, _, n5, n6, n7, n8, _⟩ := digit_ne c (hd c (List.mem_cons_self _ _))
    simp [n5, n6, n7, n8]

/-- A string `strconv.Atoi` accepts is accepted by `strconv.ParseFloat`. -/
theorem ParseFloat_of_Atoi (s : String) (n : Int) (h : Atoi s = .ok n) :
    ∃ v, ParseFloat s = .ok v := by
  obtain ⟨sign, ds, hs, hsign, hne, hd, hlt⟩ := Atoi_ok_shape s n h
  have key : ∀ (c : Char) (rest t : List Char), s.data = c :: rest →
      t = (if c = '+' ∨ c = '-' then rest else c :: rest) → t = ds →
      ∃ v, ParseFloat s = .ok v := by
    intro c rest t hsd ht htd
    subst htd
    unfold ParseFloat
    rw [hsd, special_digits c rest t ht hd hne, readFloat_digits c rest t ht hd hne]
    simp only [ne_eq, not_true_eq_false, if_false]
    have hov : overflows false (List.foldl (fun a x => a * 10 + digitVal x) 0 t) 0 = false := by
      unfold overflows float64Overflow
      simp only [Bool.false_eq_true, if_false, le_refl, if_true, Int.toNat_zero, pow_zero,
        mul_one, decide_eq_false_iff_not, not_le]
      calc _ < 2 ^ 64 := hlt
        _ < 2 ^ 1024 - 2 ^ 970 := by norm_num
    simp [hov]
  cases ds with
  | nil => exact absurd rfl hne
  | cons d ds' =>
    have hdd := digit_ne d (hd d (List.mem_cons_self _ _))
    rcases hsign with rfl | rfl | rfl
    · exact key d ds' (d :: ds') (by simpa using hs) (by simp [hdd.1, hdd.2.1]) rfl
    · exact key '+' (d :: ds') (d :: ds') (by simpa using hs) (by simp) rfl
    · exact key '-' (d :: ds') (d :: ds') (by simpa using hs) (by simp) rfl

/-! ## No parser of the loader accepts a cell that ends in `Z` -/

theorem cpl_Z : ∀ (t p : List Char), 'Z' ∈ t → (∀ x ∈ p, x ≠ 'z') →
    commonPrefixLenIgnoreCase t p < t.length := by
  intro t
  induction t with
  | nil => intro p h; simp at h
  | cons c cs ih =>
    intro p hZ hp
    cases p with
    | nil => simp [commonPrefixLenIgnoreCase]
    | cons q qs =>
      unfold commonPrefixLenIgnoreCase
      by_cases heq : foldAZ c ≠ q.toNat
      · rw [if_pos heq]; simp
      · rw [if_neg heq]
        have heq : foldAZ c = q.toNat := not_not.mp heq
        have hcZ : c ≠ 'Z' := by
          rintro rfl
          apply hp q (List.mem_cons_self _ _)
          have h1 : ('z' : Char).toNat = q.toNat := by
            rw [← heq]; decide
          apply Char.ext
          apply UInt32.ext
          exact h1.symm
        have hcs : 'Z' ∈ cs := by
          rcases List.mem_cons.mp hZ with h | h
          · exact absurd h.symm hcZ
          · exact h
        have := ih qs hcs (fun x hx => hp x (List.mem_cons_of_mem _ hx))
        simp only [List.length_cons]
        omega

theorem specialInf_Z (neg : Bool) (t : List Char) (hZ : 'Z' ∈ t) (v : FloatVal)
    (rest : List Char) (h : specialInf neg t = some (v, rest)) : rest ≠ [] := by
  have hlt := cpl_Z t "infinity".data hZ (by decide)
  unfold specialInf at h
  have e : "infinity".data = ['i', 'n', 'f', 'i', 'n', 'i', 't', 'y'] := rfl
  rw [e] at hlt h
  generalize commonPrefixLenIgnoreCase t ['i', 'n', 'f', 'i', 'n', 'i', 't', 'y'] = k at h hlt
  simp only [] at h
  by_cases hn : (if 3 < k ∧ k < 8 then 3 else k) = 3 ∨ (if 3 < k ∧ k < 8 then 3 else k) = 8
  · rw [if_pos hn] at h
    simp only [Option.some.injEq, Prod.mk.injEq] at h
    rw [← h.2]
    intro hd
    have hle := List.drop_eq_nil_iff.mp hd
    split at hle <;> omega
  · rw [if_neg hn] at h
    exact absurd h (by simp)

theorem special_Z (s : List Char) (hZ : 'Z' ∈ s) (v : FloatVal) (rest : List Char)
    (h : special s = some (v, rest)) : rest ≠ [] := by
  unfold special at h
  cases s with
  | nil => simp at hZ
  | cons c cs =>
    simp only [] at h
    by_cases h1 : c = '+' ∨ c = '-'
    · have hcs : 'Z' ∈ cs := by
        rcases List.mem_cons.mp hZ with h | h
        · rcases h1 with rfl | rfl <;> exact absurd h (by decide)
        · exact h
      rw [if_pos h1] at h
      exact specialInf_Z _ cs hcs v rest h
    · rw [if_neg h1] at h
      by_cases h2 : c = 'i' ∨ c = 'I'
      · rw [if_pos h2] at h
        exact specialInf_Z _ _ hZ v rest h
      · rw [if_neg h2] at h
        by_cases h3 : c = 'n' ∨ c = 'N'
        · rw [if_pos h3] at h
          by_cases h4 : commonPrefixLenIgnoreCase (c :: cs) "nan".data = 3
          · rw [if_pos h4] at h
            simp only [Option.some.injEq, Prod.mk.injEq] at h
            rw [← h.2]
            have := cpl_Z (c :: cs) "nan".data hZ (by decide)
            intro hd
            have := List.drop_eq_nil_iff.mp hd
            omega
          · rw [if_neg h4] at h
            exact absurd h (by simp)
        · rw [if_neg h3] at h
          exact absurd h (by simp)

theorem mem_tail_of_ne {c : Char} {cs : List Char} (hZ : 'Z' ∈ c :: cs) (hc : c ≠ 'Z') :
    'Z' ∈ cs := by
  rcases List.mem_cons.mp hZ with h | h
  · exact absurd h.symm hc
  · exact h

theorem readDigits_Z (base : Nat) : ∀ (l : List Char) (st : ReadState), 'Z' ∈ l →
    'Z' ∈ (readDigits base l st).2 := by
  intro l
  induction l with
  | nil => intro st h; simp at h
  | cons c cs ih =>
    intro st hZ
    unfold readDigits
    by_cases h1 : c = '_'
    · rw [if_pos h1]
      exact ih _ (mem_tail_of_ne hZ (by rw [h1]; decide))
    · rw [if_neg h1]
      by_cases h2 : c = '.'
      · rw [if_pos h2]
        by_cases h3 : st.sawdot = true
        · rw [if_pos h3]; exact hZ
        · rw [if_neg h3]
          exact ih _ (mem_tail_of_ne hZ (by rw [h2]; decide))
      · rw [if_neg h2]
        by_cases h4 : isDigitChar c = true
        · have hc : c ≠ 'Z' := by rintro rfl; revert h4; decide
          rw [if_pos h4]
          by_cases h5 : c = '0' ∧ st.nd = 0
          · rw [if_pos h5]; exact ih _ (mem_tail_of_ne hZ hc)
          · rw [if_neg h5]; exact ih _ (mem_tail_of_ne hZ hc)
        · rw [if_neg h4]
          by_cases h6 : base = 16 ∧ 97 ≤ lower c ∧ lower c ≤ 102
          · have hc : c ≠ 'Z' := by rintro rfl; exact absurd h6.2.2 (by decide)
            rw [if_pos h6]; exact ih _ (mem_tail_of_ne hZ hc)
          · rw [if_neg h6]; exact hZ

theorem readExp_Z : ∀ (l : List Char) (e : Nat) (us : Bool), 'Z' ∈ l →
    'Z' ∈ (readExp l e us).2.2 := by
  intro l
  induction l with
  | nil => intro e us h; simp at h
  | cons c cs ih =>
    intro e us hZ
    unfold readExp
    by_cases h1 : c = '_'
    · rw [if_pos h1]
      exact ih _ _ (mem_tail_of_ne hZ (by rw [h1]; decide))
    · rw [if_neg h1]
      by_cases h4 : isDigitChar c = true
      · have hc : c ≠ 'Z' := by rintro rfl; revert h4; decide
        rw [if_pos h4]
        exact ih _ _ (mem_tail_of_ne hZ hc)
      · rw [if_neg h4]; exact hZ

theorem readFloatEnd_rest (s : List Char) (neg hex : Bool) (st : ReadState) (dp : Int)
    (us : Bool) (r : List Char) (v : FloatVal) (rest : List Char)
    (h : readFloatEnd s neg hex st dp us r = some (v, rest)) : rest = r := by
  unfold readFloatEnd at h
  simp only [] at h
  split at h
  · exact absurd h (by simp)
  · simp only [Option.some.injEq, Prod.mk.injEq] at h
    exact h.2.symm

theorem readFloatExp_Z (s : List Char) (neg hex : Bool) (st : ReadState) (dp : Int)
    (r : List Char) (hZ : 'Z' ∈ r) (v : FloatVal) (rest : List Char)
    (h : readFloatExp s neg hex st dp r = some (v, rest)) : 'Z' ∈ rest := by
  unfold readFloatExp at h
  cases r with
  | nil => simp at hZ
  | cons e r1 =>
    simp only [] at h
    by_cases he : lower e = (if hex = true then 112 else 101)
    · rw [if_pos he] at h
      have heZ : e ≠ 'Z' := by
        rintro rfl
        cases hex <;> revert he <;> decide
      have h1 : 'Z' ∈ r1 := mem_tail_of_ne hZ heZ
      cases r1 with
      | nil => simp at h1
      | cons sg r2 =>
        simp only [] at h
        have h3 : 'Z' ∈ (if sg = '+' ∨ sg = '-' then r2 else sg :: r2) := by
          by_cases hs : sg = '+' ∨ sg = '-'
          · rw [if_pos hs]
            exact mem_tail_of_ne h1 (by rcases hs with rfl | rfl <;> decide)
          · rw [if_neg hs]; exact h1
        generalize (if sg = '+' ∨ sg = '-' then r2 else sg :: r2) = r3 at h h3
        cases r3 with
        | nil => simp at h3
        | cons d r4 =>
          simp only [] at h
          by_cases hd : ¬ isDigitChar d = true
          · rw [if_pos hd] at h; exact absurd h (by simp)
          · rw [if_neg hd] at h
            rw [readFloatEnd_rest _ _ _ _ _ _ _ _ _ h]
            exact readExp_Z _ _ _ h3
    · rw [if_neg he] at h
      by_cases hh : hex = true
      · rw [if_pos hh] at h; exact absurd h (by simp)
      · rw [if_neg hh] at h
        rw [readFloatEnd_rest _ _ _ _ _ _ _ _ _ h]
        exact hZ

theorem hexPrefix_Z (t : List Char) (hZ : 'Z' ∈ t) (h : hexPrefix t = true) :
    'Z' ∈ t.drop 2 := by
  unfold hexPrefix at h
  split at h
  · rename_i c0 c1 c2 r
    simp only [Bool.and_eq_true, decide_eq_true_eq] at h
    have h0 : c0 ≠ 'Z' := by rw [h.1]; decide
    have h1 : c1 ≠ 'Z' := by rintro rfl; exact absurd h.2 (by decide)
    exact mem_tail_of_ne (mem_tail_of_ne hZ h0) h1
  · exact absurd h (by simp)

theorem readFloat_Z (s : List Char) (hZ : 'Z' ∈ s) (v : FloatVal) (rest : List Char)
    (h : readFloat s = some (v, rest)) : 'Z' ∈ rest := by
  unfold readFloat at h
  cases s with
  | nil => simp at hZ
  | cons c cs =>
    simp only [] at h
    have ht : 'Z' ∈ (if c = '+' ∨ c = '-' then cs else c :: cs) := by
      by_cases hs : c = '+' ∨ c = '-'
      · rw [if_pos hs]
        exact mem_tail_of_ne hZ (by rcases hs with rfl | rfl <;> decide)
      · rw [if_neg hs]; exact hZ
    generalize (if c = '+' ∨ c = '-' then cs else c :: cs) = t at h ht
    by_cases hh : hexPrefix t = true
    · simp only [hh, if_true] at h
      split at h
      · exact absurd h (by simp)
      · exact readFloatExp_Z _ _ _ _ _ _ (readDigits_Z _ _ _ (hexPrefix_Z t ht hh)) _ _ h
    · have hf : hexPrefix t = false := by simpa using hh
      simp only [hf, Bool.false_eq_true, if_false] at h
      split at h
      · exact absurd h (by simp)
      · exact readFloatExp_Z _ _ _ _ _ _ (readDigits_Z _ _ _ ht) _ _ h

/-- A string with a `Z` in it is not accepted by `strconv.ParseFloat`. -/
theorem ParseFloat_Z (s : String) (hZ : 'Z' ∈ s.data) (v : FloatVal) :
    ParseFloat s ≠ .ok v := by
  intro h
  unfold ParseFloat at h
  cases hsp : special s.data with
  | some p =>
    obtain ⟨v1, rest⟩ := p
    rw [hsp] at h
    simp only [] at h
    have := special_Z _ hZ _ _ hsp
    simp [this] at h
  | none =>
    rw [hsp] at h
    simp only [] at h
    cases hr : readFloat s.data with
    | none => rw [hr] at h; exact absurd h (by simp)
    | some p =>
      obtain ⟨v1, rest⟩ := p
      rw [hr] at h
      have hrest : rest ≠ [] := by
        intro hn
        have := readFloat_Z _ hZ _ _ hr
        rw [hn] at this
        simp at this
      cases v1 <;> simp [hrest] at h

/-- A string with a `Z` in it is not accepted by `strconv.Atoi`. -/
theorem Atoi_Z (s : String) (hZ : 'Z' ∈ s.data) (n : Int) : Atoi s ≠ .ok n := by
  intro h
  obtain ⟨sign, ds, hs, hsign, _, hd, _⟩ := Atoi_ok_shape s n h
  rw [hs, List.mem_append] at hZ
  rcases hZ with hZ | hZ
  · rcases hsign with rfl | rfl | rfl <;> revert hZ <;> decide
  · have := hd _ hZ
    revert this; decide

/-! ## The inferred type of particular cells -/

theorem inferColType_pct (header cell : String) (hp : HasPrefix header "pct" = true) :
    inferColType header cell ≠ "bigint"
      ∧ ((∃ n, Atoi cell = .ok n) → inferColType header cell = "double") := by
  obtain ⟨s1, s2, _, _⟩ := inferColType_spec header cell
  refine ⟨?_, ?_⟩
  · intro h
    have := (s1.mp h).2
    rw [hp] at this
    exact absurd this (by simp)
  · rintro ⟨n, hn⟩
    apply s2.mpr
    refine ⟨?_, ParseFloat_of_Atoi cell n hn⟩
    rintro ⟨_, h⟩
    rw [hp] at h
    exact absurd h (by simp)

/-- C2: the cell "2021-06-01T10:00:00+00:00" does not parse under `RFC3339Plus`
and its column infers as text, not datetime: `nextStdChunk` finds no layout
element in "+07:00", so `time.Parse` reads these six bytes as literal text and
every value it accepts ends in "+07:00"; with that offset the cell infers as
datetime. -/
theorem C2_offset_cell_infers_text :
    Parse RFC3339Plus "2021-06-01T10:00:00+00:00" = .parseError
      ∧ inferColType "ts" "2021-06-01T10:00:00+00:00" = "text"
      ∧ nextStdChunk "+07:00".data = ("+07:00".data, none, [])
      ∧ inferColType "ts" "2021-06-01T10:00:00+07:00" = "datetime"
      ∧ ∀ (value : String) (t : Time),
          Parse RFC3339Plus value = .ok t → "+07:00".data <:+ value.data :=
  ⟨by decide, by decide, by decide, by decide, Parse_RFC3339Plus_suffix⟩

/-- C3: a first-row cell that ends in `Z` does not parse under `RFC3339Plus`,
nor with `strconv.Atoi`, nor with `strconv.ParseFloat`, and its column infers as
text, whatever the header. -/
theorem C3_cell_ending_in_Z_infers_text (header cell : String)
    (hZ : cell.data.getLast? = some 'Z') :
    (∀ t, Parse RFC3339Plus cell ≠ .ok t) ∧ (∀ n, Atoi cell ≠ .ok n)
      ∧ (∀ v, ParseFloat cell ≠ .ok v) ∧ inferColType header cell = "text" := by
  obtain ⟨ys, hys⟩ := List.getLast?_eq_some_iff.mp hZ
  have hmem : 'Z' ∈ cell.data := by rw [hys]; simp
  have hP : ∀ t, Parse RFC3339Plus cell ≠ .ok t := by
    intro t h
    obtain ⟨pre, hpre⟩ := Parse_RFC3339Plus_suffix cell t h
    have h1 : cell.data.getLast? = some '0' := by
      rw [← hpre, List.getLast?_append]
      rfl
    rw [hZ] at h1
    exact absurd h1 (by decide)
  refine ⟨hP, Atoi_Z cell hmem, ParseFloat_Z cell hmem, ?_⟩
  apply (inferColType_spec header cell).2.2.2.mpr
  refine ⟨?_, ?_, ?_⟩
  · rintro ⟨⟨n, hn⟩, _⟩; exact Atoi_Z cell hmem n hn
  · rintro ⟨v, hv⟩; exact ParseFloat_Z cell hmem v hv
  · rintro ⟨t, ht⟩; exact hP t ht

/-- C3 at the cell "2021-06-01T10:00:00Z". -/
theorem C3_witness :
    "2021-06-01T10:00:00Z".data.getLast? = some 'Z'
      ∧ inferColType "ts" "2021-06-01T10:00:00Z" = "text" :=
  ⟨by decide, (C3_cell_ending_in_Z_infers_text "ts" "2021-06-01T10:00:00Z" (by decide)).2.2.2⟩

/-- C4: a column whose header starts with "pct" never infers as bigint,
whatever its first-row cell; a cell that parses with `strconv.Atoi` parses with
`strconv.ParseFloat` too, so such a column infers as double for it.  With
headers `["pct_used", "count"]` and first row `["95", "3"]` the types are
double and bigint. -/
theorem C4_pct_column_never_bigint (header cell : String)
    (hp : HasPrefix header "pct" = true) :
    inferColType header cell ≠ "bigint"
      ∧ ((∃ n, Atoi cell = .ok n) →
          (∃ v, ParseFloat cell = .ok v) ∧ inferColType header cell = "double")
      ∧ inferLoop ["95", "3"] 0 ["pct_used", "count"] [] []
          = some (["pct_used double not null", "count bigint not null"], ["double", "bigint"]) := by
  refine ⟨(inferColType_pct header cell hp).1, ?_, ?_⟩
  · rintro ⟨n, hn⟩
    exact ⟨ParseFloat_of_Atoi cell n hn, (inferColType_pct header cell hp).2 ⟨n, hn⟩⟩
  · have h1 : inferColType "pct_used" "95" = "double" :=
      (inferColType_pct "pct_used" "95" (by decide)).2 ⟨95, by decide⟩
    have h2 : inferColType "count" "3" = "bigint" := by decide
    rw [inferLoop_eq _ _ 0 [] [] (by decide)]
    simp only [List.drop_zero, List.nil_append, List.zipWith_cons_cons, List.zipWith_nil_left, h1, h2]
    decide

/-- C4 at the header "pct_used" and the cell "95". -/
theorem C4_witness :
    HasPrefix "pct_used" "pct" = true
      ∧ inferColType "pct_used" "95" ≠ "bigint" ∧ inferColType "pct_used" "95" = "double" :=
  ⟨by decide, (C4_pct_column_never_bigint "pct_used" "95" (by decide)).1,
    ((C4_pct_column_never_bigint "pct_used" "95" (by decide)).2.1 ⟨95, by decide⟩).2⟩

/-! ## The claims at concrete inputs -/

/-- C1 at the headers `["count", "name"]`, the first row `["3", "x"]` and column 1. -/
theorem C1_witness :
    ∃ columns colTypes header col ty,
      inferLoop ["3", "x"] 0 ["count", "name"] [] [] = some (columns, colTypes)
        ∧ ["count", "name"][1]? = some header ∧ ["3", "x"][1]? = some col
        ∧ colTypes[1]? = some ty
        ∧ (ty = "bigint" ↔ (∃ n, Atoi col = .ok n) ∧ HasPrefix header "pct" = false)
        ∧ (ty = "double" ↔ ¬ ((∃ n, Atoi col = .ok n) ∧ HasPrefix header "pct" = false)
              ∧ ∃ v, ParseFloat col = .ok v)
        ∧ (ty = "datetime" ↔ ¬ ((∃ n, Atoi col = .ok n) ∧ HasPrefix header "pct" = false)
              ∧ (¬ ∃ v, ParseFloat col = .ok v) ∧ ∃ t, Parse RFC3339Plus col = .ok t)
        ∧ (ty = "text" ↔ ¬ ((∃ n, Atoi col = .ok n) ∧ HasPrefix header "pct" = false)
              ∧ (¬ ∃ v, ParseFloat col = .ok v) ∧ ¬ ∃ t, Parse RFC3339Plus col = .ok t)
        ∧ (ty = "bigint" ∨ ty = "double" ∨ ty = "datetime" ∨ ty = "text") :=
  C1_type_inferred_from_first_row ["count", "name"] ["3", "x"] 1 (by decide) (by decide)

/-- C6 at a bigint column whose second row holds "x", where the run does not
return, and at a text column with the rows `[["a"], ["b"]]`, where it returns
with both cells inserted unchanged. -/
theorem C6_witness :
    (createTable (fun _ _ => true) "t" ["n"] [["1"], ["x"]] {}).1 ≠ Exit.returned
      ∧ (createTable (fun _ _ => true) "t" ["s"] [["a"], ["b"]] {}).2.stmts
          = [{ query := "DROP TABLE IF EXISTS t" },
             { query := "CREATE TABLE t (id bigint not null auto_increment primary key, "
                 ++ "s text not null) CHARACTER SET utf8" },
             { query := "INSERT INTO t(s) VALUES (?)", args := [.text "a"] },
             { query := "INSERT INTO t(s) VALUES (?)", args := [.text "b"] }] := by
  constructor
  · intro h
    have hall := (C6_returns_iff_every_cell_reparses (fun _ _ => true) (fun _ _ => rfl) "t"
      ["n"] ["1"] [["x"]] {} (by decide)).1.mp h
    obtain ⟨n, hn⟩ := (hall ["x"] (by simp) 0 "n" "1" "x" rfl rfl rfl).1 (by decide)
    have : Atoi "x" = .error .ErrSyntax := by decide
    rw [this] at hn
    cases hn
  · have htext : inferColType "s" "a" = "text" := by decide
    have hone : ∀ (stmt : Stmt) (c : String), stmt.query = "INSERT INTO t(s) VALUES (?)" →
        stmt.args.length = 1 → stmt.args[0]? = some (.text c) →
        stmt = { query := "INSERT INTO t(s) VALUES (?)", args := [.text c] } := by
      intro stmt c hq hl h0
      obtain ⟨q, args⟩ := stmt
      simp only at hq hl h0
      subst hq
      match args, hl, h0 with
      | [a], _, h0 =>
        simp only [List.getElem?_cons_zero, Option.some.injEq] at h0
        rw [h0]
    obtain ⟨inserts, hst, hins⟩ := (C6_returns_iff_every_cell_reparses (fun _ _ => true) (fun _ _ => rfl) "t"
      ["s"] ["a"] [["b"]] {} (by decide)).2.2.2 (by decide)
    simp only [List.forall₂_cons_right_iff, List.forall₂_nil_right_iff] at hins
    obtain ⟨s1, l1, ⟨hq1, hl1, hc1⟩, ⟨s2, l2, ⟨hq2, hl2, hc2⟩, rfl, rfl⟩, rfl⟩ := hins
    have e1 := hone s1 "a" hq1 hl1 ((hc1 0 "s" "a" "a" rfl rfl rfl).2 htext)
    have e2 := hone s2 "b" hq2 hl2 ((hc2 0 "s" "a" "b" rfl rfl rfl).2 htext)
    rw [hst, e1, e2]
    simp only [World.stmts, List.nil_append, List.zipWith_cons_cons, List.zipWith_nil_left, htext]
    rfl

/-- C7 at the rows `[["1"], ["x"], ["3"]]` of a bigint column: DROP, CREATE and one
INSERT are executed before the fatal exit. -/
theorem C7_witness :
    ∃ (inserts : List Stmt) (e : Fatal),
      (createTable (fun _ _ => true) "t" ["n"] [["1"], ["x"], ["3"]] {}).1 = .fatal e
        ∧ (createTable (fun _ _ => true) "t" ["n"] [["1"], ["x"], ["3"]] {}).2.stmts
            = [{ query := "DROP TABLE IF EXISTS t" },
               { query := "CREATE TABLE t (id bigint not null auto_increment primary key, "
                   ++ "n bigint not null) CHARACTER SET utf8" }] ++ inserts
        ∧ inserts.length = 1 := by
  obtain ⟨inserts, e, h1, _, _, h2, h3⟩ := C7_no_rollback_on_failure (fun _ _ => true)
    (fun _ _ => rfl) "t" ["n"] ["1"] [["1"]] ["x"] [["3"]] {} rfl (by decide)
    (by
      intro r hr i header c0 c hh h0 hc
      have hr1 : r = ["1"] := by simpa using hr
      subst hr1
      cases i with
      | zero =>
        simp only [List.getElem?_cons_zero, Option.some.injEq] at hh h0 hc
        subst hh h0 hc
        exact ⟨fun _ => ⟨1, by decide⟩, fun h => absurd h (by decide),
          fun h => absurd h (by decide)⟩
      | succ k => simp at hh)
    ⟨0, "n", "1", "x", rfl, rfl, rfl, by
      intro h
      obtain ⟨n, hn⟩ := h.1 (by decide)
      have : Atoi "x" = .error .ErrSyntax := by decide
      rw [this] at hn
      cases hn⟩
  refine ⟨inserts, e, h1, ?_, ?_⟩
  · refine Eq.trans h2 ?_
    have : inferColType "n" "1" = "bigint" := by decide
    simp only [World.stmts, List.nil_append, List.zipWith_cons_cons, List.zipWith_nil_left, this]
    rfl
  · simpa using h3.length_eq

/-- C10 at the headers `["count", "name"]` and the rows `[["3", "x"], ["4", "y"]]`. -/
theorem C10_witness :
    ∃ inserts,
      (createTable (fun _ _ => true) "t" ["count", "name"] [["3", "x"], ["4", "y"]] {}).2.stmts
        = { query := "DROP TABLE IF EXISTS t" }
          :: { query := "CREATE TABLE t (id bigint not null auto_increment primary key, "
                ++ "count bigint not null, name text not null) CHARACTER SET utf8" }
          :: inserts := by
  obtain ⟨⟨later, h1, h2⟩, _, _⟩ := C10_create_table_statement (fun _ _ => true) "t"
    ["count", "name"] ["3", "x"] [["4", "y"]] {} (by decide)
  obtain ⟨inserts, h3⟩ := h2 rfl
  refine ⟨inserts, ?_⟩
  rw [h1, h3]
  have e1 : inferColType "count" "3" = "bigint" := by decide
  have e2 : inferColType "name" "x" = "text" := by decide
  simp only [World.stmts, List.nil_append, List.zipWith_cons_cons, List.zipWith_nil_left, e1, e2]
  rfl

end Suicord
